import Mathlib

/-!
ddns-updater: the Dynu provider adapter and the round-robin public-IP fetcher.

A shallow embedding of

* `internal/settings/providers/dynu/provider.go` (`New`, `isValid`, the accessors and `Update`),
* `pkg/publicip/dns/ip.go` (`Fetcher.IP`, `IP4`, `IP6`, `ip`),

followed by theorems about them.

Conventions of the embedding

* Go `string` values are Lean `String`s; `strings.Contains` is the substring test.
* A Go function returning `(value, err error)` returns a pair whose second component is
  `Option Error` (`none` is the `nil` error); a `nil` pointer is `none`.
* A run-time panic (index out of range, integer division by zero) is the `none` outcome of
  the panicking function.
* Go's `int` is 32 or 64 bits wide depending on the target; the width is the explicit
  parameter `intSize` wherever a conversion to `int` occurs.
-/

namespace DdnsUpdater

/-! ## Errors -/

/-- The package-level error values of `internal/settings/errors` that the adapter wraps. -/
inductive Sentinel
  | ErrEmptyUsername
  | ErrEmptyPassword
  | ErrHostWildcard
  | ErrBadRequest
  | ErrUnsuccessfulResponse
  | ErrUnmarshalResponse
  | ErrBadHTTPStatus
  | ErrAuth
  | ErrHostnameNotExists
  | ErrAbuse
  | ErrUnknownResponse
  deriving DecidableEq, Repr

/-- A Go `error` value as the adapter produces it: either an error handed back by a library
call (`json.Unmarshal`), or `fmt.Errorf` wrapping one package error with `%w`, followed by
the remaining formatted arguments. -/
inductive Error
  | lib (msg : String)
  | wrap (s : Sentinel) (args : List String)
  deriving DecidableEq, Repr

/-- The test `errors.Is(err, target)` for a package error `target`. -/
def Error.Is : Error → Sentinel → Bool
  | .lib _, _ => false
  | .wrap s _, t => decide (s = t)

/-! ## Strings -/

/-- Whether the character list `p` starts the character list `s`. -/
def startsWith : List Char → List Char → Bool
  | _, [] => true
  | [], _ :: _ => false
  | c :: cs, d :: ds => decide (c = d) && startsWith cs ds

/-- Whether `sub` occurs in `s` as a contiguous block. -/
def containsList : List Char → List Char → Bool
  | [], sub => startsWith [] sub
  | c :: cs, sub => startsWith (c :: cs) sub || containsList cs sub

/-- Go's `strings.Contains(s, substr)`. -/
def strings.Contains (s substr : String) : Bool :=
  containsList s.toList substr.toList

/-! ## Configuration and construction (`New`, `isValid`) -/

/-- Modelled from the spec: the address-family policy `ipversion.IPVersion` ("require v4,
require v6, or either"), whose declaration is not among the sources. The adapter only
stores and returns it. -/
inductive IPVersion
  | IP4or6
  | IP4
  | IP6
  deriving DecidableEq, Repr

/-- The anonymous struct `extraSettings` of `New`. -/
structure ExtraSettings where
  Username : String
  Password : String
  UseProviderIP : Bool
  Group : String
  deriving DecidableEq, Repr

/-- The effect of `json.Unmarshal(data, &extraSettings)` for one raw message `data`: either
the decoder reports an error, or it assigns the fields for which the message carries an
option and leaves the others untouched (`none`). -/
inductive RawMessage
  | invalid (msg : String)
  | fields (username password group : Option String) (provider_ip : Option Bool)
  deriving DecidableEq, Repr

/-- The call `json.Unmarshal(data, &v)`: the updated struct and the returned error. -/
def json.Unmarshal (data : RawMessage) (v : ExtraSettings) : ExtraSettings × Option Error :=
  match data with
  | .invalid msg => (v, some (.lib msg))
  | .fields username password group provider_ip =>
      ({ Username := username.getD v.Username,
         Password := password.getD v.Password,
         UseProviderIP := provider_ip.getD v.UseProviderIP,
         Group := group.getD v.Group }, none)

/-- The struct `Provider` of package `dynu`. -/
structure Provider where
  domain : String
  host : String
  group : String
  ipVersion : IPVersion
  username : String
  password : String
  useProviderIP : Bool
  deriving DecidableEq, Repr

/-- The method `(*Provider).isValid`. -/
def Provider.isValid (p : Provider) : Option Error :=
  if p.username = "" then some (.wrap .ErrEmptyUsername [])
  else if p.password = "" then some (.wrap .ErrEmptyPassword [])
  else if p.host = "*" then some (.wrap .ErrHostWildcard [])
  else none

/-- The constructor `New(data, domain, host, ipVersion)`. -/
def New (data : RawMessage) (domain host : String) (ipVersion : IPVersion) :
    Option Provider × Option Error :=
  let extraSettings : ExtraSettings :=
    { Username := "", Password := "", UseProviderIP := false, Group := "" }
  match json.Unmarshal data extraSettings with
  | (_, some err) => (none, some err)
  | (extraSettings, none) =>
    let host := if host = "" then "@" else host
    let p : Provider :=
      { domain := domain,
        host := host,
        ipVersion := ipVersion,
        group := extraSettings.Group,
        username := extraSettings.Username,
        password := extraSettings.Password,
        useProviderIP := extraSettings.UseProviderIP }
    match p.isValid with
    | some err => (none, some err)
    | none => (some p, none)

/-- The accessor `(*Provider).Domain`. -/
def Provider.Domain (p : Provider) : String := p.domain

/-- The accessor `(*Provider).Host`. -/
def Provider.Host (p : Provider) : String := p.host

/-- The accessor `(*Provider).IPVersion`. -/
def Provider.IPVersion (p : Provider) : IPVersion := p.ipVersion

/-- The accessor `(*Provider).Proxied`. -/
def Provider.Proxied (_p : Provider) : Bool := false

/-! ## Addresses (`net/netip`) -/

/-- The zone field `z` of a `netip.Addr`: `z0` marks the zero `Addr`, `z4` an IPv4 address,
`z6noz` an IPv6 address without zone, and `zone name` an IPv6 address with a zone. -/
inductive Zone
  | z0
  | z4
  | z6noz
  | zone (name : String)
  deriving DecidableEq, Repr

/-- The value type `netip.Addr`: the 128-bit address as two `uint64` halves (read modulo
`2 ^ 64`), and the zone field. An IPv4 address is stored as its IPv4-mapped IPv6 form. -/
structure Addr where
  hi : Nat
  lo : Nat
  z : Zone
  deriving DecidableEq, Repr

/-- The zero value `netip.Addr{}`. -/
def Addr.zero : Addr := { hi := 0, lo := 0, z := .z0 }

/-- The address `netip.AddrFrom4([4]byte{a, b, c, d})`. -/
def Addr.from4 (a b c d : Nat) : Addr :=
  { hi := 0,
    lo := 0xffff00000000 + (a % 256) * 2 ^ 24 + (b % 256) * 2 ^ 16 + (c % 256) * 2 ^ 8 + d % 256,
    z := .z4 }

/-- The method `Addr.Is4`. -/
def Addr.Is4 (ip : Addr) : Bool := decide (ip.z = .z4)

/-- The method `Addr.Is6`: true for every IPv6 address, IPv4-mapped ones included. -/
def Addr.Is6 (ip : Addr) : Bool := decide (ip.z ≠ .z0) && decide (ip.z ≠ .z4)

/-- The method `Addr.Is4In6`. -/
def Addr.Is4In6 (ip : Addr) : Bool :=
  ip.Is6 && decide (ip.hi % 2 ^ 64 = 0) && decide (ip.lo % 2 ^ 64 / 2 ^ 32 = 0xffff)

/-- The method `Addr.Zone`. -/
def Addr.Zone (ip : Addr) : String :=
  match ip.z with
  | .zone name => name
  | _ => ""

/-- The byte `ip.v4(i)` of the IPv4 part. -/
def Addr.v4 (ip : Addr) (i : Nat) : Nat := ip.lo % 2 ^ 64 / 2 ^ ((3 - i) * 8) % 256

/-- The 16-bit group `ip.v6u16(i)`. -/
def Addr.v6u16 (ip : Addr) (i : Nat) : Nat :=
  (if i / 4 % 2 = 0 then ip.hi else ip.lo) % 2 ^ 64 / 2 ^ ((3 - i % 4) * 16) % 65536

/-- The dotted-decimal text `ip.string4()`. -/
def Addr.string4 (ip : Addr) : String :=
  toString (ip.v4 0) ++ "." ++ toString (ip.v4 1) ++ "." ++ toString (ip.v4 2) ++ "." ++
    toString (ip.v4 3)

/-- Lower-case hexadecimal text of a 16-bit group, without leading zeros. -/
def appendHex (ret : String) (x : Nat) : String := ret ++ String.mk (Nat.toDigits 16 x)

/-- The inner loop of `appendTo6`: the first index `j ≥ i` that is 8 or holds a non-zero
group. -/
def Addr.zeroRunEnd (ip : Addr) : Nat → Nat → Nat
  | 0, j => j
  | fuel + 1, j => if j < 8 ∧ ip.v6u16 j = 0 then Addr.zeroRunEnd ip fuel (j + 1) else j

/-- The first loop of `appendTo6`: the bounds `(zeroStart, zeroEnd)` of the first longest
run of at least two zero groups, `(255, 255)` when there is none. -/
def Addr.zeroRun (ip : Addr) : Nat × Nat :=
  (List.range 8).foldl
    (fun (acc : Nat × Nat) i =>
      let j := ip.zeroRunEnd 8 i
      let l := j - i
      if l ≥ 2 ∧ l > acc.2 - acc.1 then (i, j) else acc)
    (255, 255)

/-- The second loop of `appendTo6`, from index `i` on. -/
def Addr.appendGroups (ip : Addr) (zeroStart zeroEnd : Nat) : Nat → Nat → String → String
  | 0, _, ret => ret
  | fuel + 1, i, ret =>
    if i ≥ 8 then ret
    else if i = zeroStart then
      let ret := ret ++ "::"
      let i := zeroEnd
      if i ≥ 8 then ret
      else Addr.appendGroups ip zeroStart zeroEnd fuel (i + 1) (appendHex ret (ip.v6u16 i))
    else
      let ret := if i > 0 then ret ++ ":" else ret
      Addr.appendGroups ip zeroStart zeroEnd fuel (i + 1) (appendHex ret (ip.v6u16 i))

/-- The text `ip.string6()` of an IPv6 address. -/
def Addr.string6 (ip : Addr) : String :=
  let run := ip.zeroRun
  let ret := ip.appendGroups run.1 run.2 9 0 ""
  if ip.z ≠ .z6noz then ret ++ "%" ++ ip.Zone else ret

/-- The method `Addr.String`. -/
def Addr.String (ip : Addr) : String :=
  match ip.z with
  | .z0 => "invalid IP"
  | .z4 => ip.string4
  | _ =>
    if ip.Is4In6 then
      if ip.Zone ≠ "" then "::ffff:" ++ ip.string4 ++ "%" ++ ip.Zone
      else "::ffff:" ++ ip.string4
    else ip.string6


/-! ## Query values and URLs (`net/url`) -/

/-- The map type `url.Values`, as the list of its keys with their values; `Set` keeps
every key at most once. -/
structure url.Values where
  entries : List (String × List String)
  deriving DecidableEq, Repr

/-- The empty map `url.Values{}`. -/
def url.Values.empty : url.Values := { entries := [] }

/-- Replace the values of `key` in an entry list, or add the key. -/
def setEntry (key value : String) : List (String × List String) → List (String × List String)
  | [] => [(key, [value])]
  | (k, vs) :: rest =>
    if k = key then (key, [value]) :: rest else (k, vs) :: setEntry key value rest

/-- The method `Values.Set(key, value)`: `v[key] = []string{value}`. -/
def url.Values.Set (v : url.Values) (key value : String) : url.Values :=
  { entries := setEntry key value v.entries }

/-- The map access `v[key]`, `none` when the key is absent. -/
def url.Values.lookup (v : url.Values) (key : String) : Option (List String) :=
  (v.entries.find? (fun e => e.1 = key)).map (fun e => e.2)

/-- The method `Values.Has(key)`. -/
def url.Values.Has (v : url.Values) (key : String) : Bool :=
  (v.lookup key).isSome

/-- The method `Values.Get(key)`: the first value of the key, or the empty string. -/
def url.Values.Get (v : url.Values) (key : String) : String :=
  match v.lookup key with
  | some (x :: _) => x
  | _ => ""

/-- The UTF-8 bytes of one character. -/
def utf8Bytes (c : Char) : List Nat :=
  let n := c.toNat
  if n < 0x80 then [n]
  else if n < 0x800 then [0xC0 + n / 64, 0x80 + n % 64]
  else if n < 0x10000 then [0xE0 + n / 4096, 0x80 + n / 64 % 64, 0x80 + n % 64]
  else [0xF0 + n / 262144, 0x80 + n / 4096 % 64, 0x80 + n / 64 % 64, 0x80 + n % 64]

/-- One upper-case hexadecimal digit. -/
def upperHexDigit (n : Nat) : Char := "0123456789ABCDEF".toList.getD n '0'

/-- Whether `url.QueryEscape` leaves the byte as it is: letters, digits and `-_.~`. -/
def unreservedByte (b : Nat) : Bool :=
  (0x61 ≤ b && b ≤ 0x7A) || (0x41 ≤ b && b ≤ 0x5A) || (0x30 ≤ b && b ≤ 0x39) ||
    b = 0x2D || b = 0x5F || b = 0x2E || b = 0x7E

/-- The escaped form of one byte under `url.QueryEscape`. -/
def escapeByte (b : Nat) : List Char :=
  if unreservedByte b then [Char.ofNat b]
  else if b = 0x20 then ['+']
  else ['%', upperHexDigit (b / 16), upperHexDigit (b % 16)]

/-- The function `url.QueryEscape`. -/
def url.QueryEscape (s : String) : String :=
  String.mk ((s.toList.flatMap utf8Bytes).flatMap escapeByte)

/-- Lexicographic comparison of byte sequences. -/
def lessBytes : List Nat → List Nat → Bool
  | _, [] => false
  | [], _ :: _ => true
  | a :: as, b :: bs => decide (a < b) || (decide (a = b) && lessBytes as bs)

/-- Go's string comparison `a < b`, byte by byte. -/
def stringLess (a b : String) : Bool :=
  lessBytes (a.toList.flatMap utf8Bytes) (b.toList.flatMap utf8Bytes)

/-- Insert a key into a sorted list of keys, once. -/
def insertKey (k : String) : List String → List String
  | [] => [k]
  | x :: xs =>
    if k = x then x :: xs else if stringLess k x then k :: x :: xs else x :: insertKey k xs

/-- The keys of the map in increasing order (`slices.Sort(keys)`). -/
def url.Values.sortedKeys (v : url.Values) : List String :=
  v.entries.foldr (fun e acc => insertKey e.1 acc) []

/-- The method `Values.Encode()`: the pairs `key=value`, escaped, sorted by key and joined
by `&`. -/
def url.Values.Encode (v : url.Values) : String :=
  let keys := v.sortedKeys
  let pairs := keys.flatMap (fun k =>
    ((v.lookup k).getD []).map (fun x => url.QueryEscape k ++ "=" ++ url.QueryEscape x))
  "&".intercalate pairs

/-- The fields of `url.URL` that `Update` sets. -/
structure url.URL where
  Scheme : String
  Host : String
  Path : String
  RawQuery : String
  deriving DecidableEq, Repr

/-- The method `URL.String()` for a URL with a scheme, a host, an absolute path of
unreserved characters and slashes, and a raw query. -/
def url.URL.String (u : url.URL) : String :=
  u.Scheme ++ "://" ++ u.Host ++ u.Path ++ (if u.RawQuery = "" then "" else "?" ++ u.RawQuery)

/-! ## Requests and responses (`net/http`, `io`) -/

/-- A non-nil `context.Context` value; a possibly nil one is an `Option Context`. -/
structure Context where
  name : String
  deriving DecidableEq, Repr

/-- The fields of `http.Request` that matter here. -/
structure http.Request where
  ctx : Context
  Method : String
  URL : String
  Header : List (String × String)
  deriving DecidableEq, Repr

/-- An `http.Response` as `Update` reads it: the status code and the outcome of
`io.ReadAll(response.Body)`, either the read error or the whole body. -/
structure http.Response where
  StatusCode : Int
  Body : Except String String

/-- An `*http.Client`: the outcome of `client.Do(request)`, either the transport error or
the response. -/
structure http.Client where
  Do : http.Request → Except String http.Response

/-- Whether the string holds an ASCII control character (`stringContainsCTLByte`). -/
def stringContainsCTLByte (s : String) : Bool :=
  s.toList.any (fun c => c.toNat < 0x20 || c.toNat = 0x7f)

/-- The constant `http.StatusOK`. -/
def http.StatusOK : Int := 200

/-- The function `http.NewRequestWithContext(ctx, method, url, nil)`: it refuses a nil
context and a URL that `url.Parse` rejects. Of the checks of `url.Parse` the one for control
characters is kept; the others concern the scheme, host and path, which `Update` fixes. -/
def http.NewRequestWithContext (ctx : Option Context) (method url : String) :
    Except String http.Request :=
  match ctx with
  | none => .error "net/http: nil Context"
  | some c =>
    if stringContainsCTLByte url then .error "net/url: invalid control character in URL"
    else .ok { ctx := c, Method := method, URL := url, Header := [] }

/-! ## The update call (`Update`) -/

/-- The declarations of the sibling packages `constants`, `utils` and `headers` that
`Update` uses and that are not among the sources: the three response markers, the function
`utils.ToSingleLine`, and `headers.SetUserAgent`. -/
structure Deps where
  Badauth : String
  Notfqdn : String
  Abuse : String
  ToSingleLine : String → String
  SetUserAgent : http.Request → http.Request

/-- Modelled from the spec: the function `utils.BuildDomainName(host, domain)`, which is not
among the sources: "root marker yields the bare domain; otherwise `host.domain`". -/
def utils.BuildDomainName (host domain : String) : String :=
  if host = "@" then domain else host ++ "." ++ domain

/-- The method `(*Provider).BuildDomainName`. -/
def Provider.BuildDomainName (p : Provider) : String :=
  utils.BuildDomainName p.host p.domain

/-- The query values that `Update` builds for the address `ip` (the statements from
`values := url.Values{}` to the end of `if !p.useProviderIP`). -/
def Provider.updateValues (p : Provider) (ip : Addr) : url.Values :=
  let values := url.Values.empty
  let values := values.Set "username" p.username
  let values := values.Set "password" p.password
  let values := values.Set "location" p.group
  let hostname := utils.BuildDomainName p.host p.domain
  let values := values.Set "hostname" hostname
  if !p.useProviderIP then
    if ip.Is6 then values.Set "myipv6" ip.String
    else values.Set "myip" ip.String
  else values

/-- The URL that `Update` requests for the address `ip` (up to `u.RawQuery = ...`). -/
def Provider.updateURL (p : Provider) (ip : Addr) : url.URL :=
  let u : url.URL :=
    { Scheme := "https", Host := "api.dynu.com", Path := "/nic/update", RawQuery := "" }
  { u with RawQuery := (p.updateValues ip).Encode }

/-- The classification of a response with status 200 and body `s` (the `switch` that ends
`Update`). -/
def Provider.classify (d : Deps) (ip : Addr) (s : String) : Addr × Option Error :=
  if strings.Contains s d.Badauth then (Addr.zero, some (.wrap .ErrAuth []))
  else if strings.Contains s d.Notfqdn then (Addr.zero, some (.wrap .ErrHostnameNotExists []))
  else if strings.Contains s d.Abuse then (Addr.zero, some (.wrap .ErrAbuse []))
  else if strings.Contains s "good" then (ip, none)
  else if strings.Contains s "nochg" then (ip, none)
  else (Addr.zero, some (.wrap .ErrUnknownResponse [d.ToSingleLine s]))

/-- The method `(*Provider).Update(ctx, client, ip)`. -/
def Provider.Update (d : Deps) (p : Provider) (ctx : Option Context) (client : http.Client)
    (ip : Addr) : Addr × Option Error :=
  let u := p.updateURL ip
  match http.NewRequestWithContext ctx "GET" u.String with
  | .error err => (Addr.zero, some (.wrap .ErrBadRequest [err]))
  | .ok request =>
    let request := d.SetUserAgent request
    match client.Do request with
    | .error err => (Addr.zero, some (.wrap .ErrUnsuccessfulResponse [err]))
    | .ok response =>
      match response.Body with
      | .error err => (Addr.zero, some (.wrap .ErrUnmarshalResponse [err]))
      | .ok s =>
        if response.StatusCode ≠ http.StatusOK then
          (Addr.zero,
            some (.wrap .ErrBadHTTPStatus [toString response.StatusCode, d.ToSingleLine s]))
        else Provider.classify d ip s

/-! ## Round-robin fetcher (`pkg/publicip/dns/ip.go`) -/

/-- The conversion `int(x)` of an unsigned value to Go's `int` of `intSize` bits: the value
is truncated to the width and read in two's complement. -/
def toInt (intSize : Nat) (x : Nat) : Int :=
  let m := x % 2 ^ intSize
  if m < 2 ^ (intSize - 1) then (m : Int) else (m : Int) - 2 ^ intSize

/-- The call `atomic.AddUint32(addr, delta)` on a cell holding `counter`: the new value,
which is both stored and returned. -/
def atomic.AddUint32 (counter delta : Nat) : Nat := (counter + delta) % 2 ^ 32

/-- The struct behind `f.ring`, from the field accesses of `ip.go`: the cell that
`counter` points to (a `uint32`) and the slice `providers`. -/
structure ring (P : Type) where
  counter : Nat
  providers : List P

/-- The struct `Fetcher`, from the field accesses of `ip.go`: one ring and the three
clients. -/
structure Fetcher (C P : Type) where
  ring : ring P
  client : C
  client4 : C
  client6 : C

/-- The index expression of `ip`, `int(n) % len`, for the incremented counter value `n` and
a ring of `len` providers; Go's `%` truncates toward zero. -/
def ringIndex (intSize : Nat) (n len : Nat) : Int :=
  Int.tmod (toInt intSize n) (len : Int)

/-- The method `(*Fetcher).ip(ctx, client)`. The functions `data` (the method
`provider.data()`) and `fetch` (the call `fetch(ctx, client, ...)`) are not among the
sources. The result is the fetcher with its counter cell after the call, and what `fetch`
returned, or `none` when the index expression panics. -/
def Fetcher.ip {C P D R : Type} (intSize : Nat) (data : P → D) (fetch : C → D → R)
    (f : Fetcher C P) (client : C) : Fetcher C P × Option R :=
  let n := atomic.AddUint32 f.ring.counter 1
  let f := { f with ring := { f.ring with counter := n } }
  if f.ring.providers.length = 0 then (f, none)
  else
    let index := ringIndex intSize n f.ring.providers.length
    if index < 0 then (f, none)
    else
      match f.ring.providers[index.toNat]? with
      | none => (f, none)
      | some provider => (f, some (fetch client (data provider)))

/-- The method `(*Fetcher).IP(ctx)`. -/
def Fetcher.IP {C P D R : Type} (intSize : Nat) (data : P → D) (fetch : C → D → R)
    (f : Fetcher C P) : Fetcher C P × Option R :=
  f.ip intSize data fetch f.client

/-- The method `(*Fetcher).IP4(ctx)`. -/
def Fetcher.IP4 {C P D R : Type} (intSize : Nat) (data : P → D) (fetch : C → D → R)
    (f : Fetcher C P) : Fetcher C P × Option R :=
  f.ip intSize data fetch f.client4

/-- The method `(*Fetcher).IP6(ctx)`. -/
def Fetcher.IP6 {C P D R : Type} (intSize : Nat) (data : P → D) (fetch : C → D → R)
    (f : Fetcher C P) : Fetcher C P × Option R :=
  f.ip intSize data fetch f.client6

/-! ## Specification-side definitions and sample data -/

/-- The ordered marker table of the specification, section 4.1 items 3 to 6: each marker with
the package error it stands for, `none` for the two success markers. -/
def markerRules (d : Deps) : List (String × Option Sentinel) :=
  [(d.Badauth, some .ErrAuth), (d.Notfqdn, some .ErrHostnameNotExists),
   (d.Abuse, some .ErrAbuse), ("good", none), ("nochg", none)]

/-- The entry of the first rule of a table whose marker occurs in the body `s`. -/
def firstRule (s : String) : List (String × Option Sentinel) → Option (Option Sentinel)
  | [] => none
  | (marker, o) :: rest => if strings.Contains s marker then some o else firstRule s rest

/-- The outcome that the specification assigns to a status-200 body `s`: the first
matching rule decides, and a body matching no rule is an unknown response. -/
def ruleOutcome (d : Deps) (ip : Addr) (s : String) : Addr × Option Error :=
  match firstRule s (markerRules d) with
  | some (some e) => (Addr.zero, some (.wrap e []))
  | some none => (ip, none)
  | none => (Addr.zero, some (.wrap .ErrUnknownResponse [d.ToSingleLine s]))

/-- Whether a result `(value, err)` carries an error that wraps the package error `t`. -/
def failsWith {α : Type} (r : α × Option Error) (t : Sentinel) : Bool :=
  match r.2 with
  | some e => e.Is t
  | none => false

/-- A sample instance of the missing declarations, for evaluating `Update` on concrete
inputs: the markers `badauth`, `notfqdn` and `abuse`, the identity for `ToSingleLine`, and a
`SetUserAgent` that sets one header. -/
def sampleDeps : Deps :=
  { Badauth := "badauth",
    Notfqdn := "notfqdn",
    Abuse := "abuse",
    ToSingleLine := fun s => s,
    SetUserAgent := fun r => { r with Header := [("User-Agent", "ddns-updater")] } }

/-- A sample provider: user `u`, password `p`, the root host of `example.com`. -/
def sampleProvider : Provider :=
  { domain := "example.com", host := "@", group := "", ipVersion := .IP4or6,
    username := "u", password := "p", useProviderIP := false }

/-- A client that answers every request with the given status code and body. -/
def constClient (status : Int) (body : String) : http.Client :=
  { Do := fun _ => .ok { StatusCode := status, Body := .ok body } }

/-- A sample non-nil context. -/
def sampleContext : Context := { name := "background" }

/-- The request that `Update` of the sample provider builds for 203.0.113.5. -/
def sampleRequest : http.Request :=
  { ctx := sampleContext, Method := "GET",
    URL := "https://api.dynu.com/nic/update?hostname=example.com&location=&myip=203.0.113.5&password=p&username=u",
    Header := [] }

/-- A sample fetcher: a ring of the three providers `a`, `b`, `c` whose counter cell holds
`counter`, and clients named after their transport. -/
def sampleFetcher (counter : Nat) : Fetcher String String :=
  { ring := { counter := counter, providers := ["a", "b", "c"] },
    client := "any", client4 := "v4", client6 := "v6" }

/-- A sample `fetch`: it reports the client and the provider it was given. -/
def sampleFetch (client provider : String) : String := client ++ ":" ++ provider

/-- Sequential calls of `ip`, one for each client of the list, every call on the fetcher
that the call before left behind: the fetcher after the last call, and the outcomes in call
order. -/
def Fetcher.run {C P D R : Type} (intSize : Nat) (data : P → D) (fetch : C → D → R) :
    Fetcher C P → List C → Fetcher C P × List (Option R)
  | f, [] => (f, [])
  | f, client :: rest =>
    let r := f.ip intSize data fetch client
    let rs := Fetcher.run intSize data fetch r.1 rest
    (rs.1, r.2 :: rs.2)

/-- The method `(*Provider).Update(ctx, client, ip)` with its pointer receiver made
explicit: the provider after the call, and the returned values. No statement of the method
assigns to a field of the receiver, so every `return` hands back the provider it read. -/
def Provider.UpdateState (d : Deps) (p : Provider) (ctx : Option Context)
    (client : http.Client) (ip : Addr) : Provider × (Addr × Option Error) :=
  let u := p.updateURL ip
  match http.NewRequestWithContext ctx "GET" u.String with
  | .error err => (p, (Addr.zero, some (.wrap .ErrBadRequest [err])))
  | .ok request =>
    let request := d.SetUserAgent request
    match client.Do request with
    | .error err => (p, (Addr.zero, some (.wrap .ErrUnsuccessfulResponse [err])))
    | .ok response =>
      match response.Body with
      | .error err => (p, (Addr.zero, some (.wrap .ErrUnmarshalResponse [err])))
      | .ok s =>
        if response.StatusCode ≠ http.StatusOK then
          (p, (Addr.zero,
            some (.wrap .ErrBadHTTPStatus [toString response.StatusCode, d.ToSingleLine s])))
        else (p, Provider.classify d ip s)

/-! ## Theorems -/

/-- The list `p` starts the list `s` exactly when `startsWith s p` holds. -/
theorem startsWith_iff (s p : List Char) : startsWith s p = true ↔ p <+: s := by
  induction p generalizing s with
  | nil => simp [startsWith]
  | cons d ds ih =>
    cases s with
    | nil => simp [startsWith]
    | cons c cs =>
      simp only [startsWith, Bool.and_eq_true, decide_eq_true_eq, ih, List.cons_prefix_cons]
      constructor
      · rintro ⟨h1, h2⟩
        exact ⟨h1.symm, h2⟩
      · rintro ⟨h1, h2⟩
        exact ⟨h1.symm, h2⟩

/-- The test `strings.Contains` holds exactly when the characters of `substr` form a
contiguous block of those of `s`. -/
theorem Contains_iff (s substr : String) :
    strings.Contains s substr = true ↔ substr.toList <:+: s.toList := by
  unfold strings.Contains
  generalize s.toList = l
  generalize substr.toList = sub
  induction l with
  | nil =>
    simp only [containsList, startsWith_iff, List.prefix_nil, List.infix_nil]
  | cons c cs ih =>
    simp only [containsList, Bool.or_eq_true, startsWith_iff, ih, List.infix_cons_iff]

/-- The result of `Update` once the request was built, the client answered and the body
was read: the status check followed by the classification of the body. -/
theorem Update_of_response (d : Deps) (p : Provider) (ctx : Option Context)
    (client : http.Client) (ip : Addr) (request : http.Request) (response : http.Response)
    (s : String)
    (hreq : http.NewRequestWithContext ctx "GET" (p.updateURL ip).String = .ok request)
    (hdo : client.Do (d.SetUserAgent request) = .ok response)
    (hbody : response.Body = .ok s) :
    p.Update d ctx client ip =
      if response.StatusCode ≠ http.StatusOK then
        (Addr.zero,
          some (.wrap .ErrBadHTTPStatus [toString response.StatusCode, d.ToSingleLine s]))
      else Provider.classify d ip s := by
  simp only [Provider.Update, hreq, hdo, hbody]

/-- The `switch` of `Update` is the first-match evaluation of the marker table. -/
theorem classify_eq_ruleOutcome (d : Deps) (ip : Addr) (s : String) :
    Provider.classify d ip s = ruleOutcome d ip s := by
  unfold Provider.classify ruleOutcome markerRules firstRule firstRule firstRule firstRule
    firstRule firstRule
  by_cases h1 : strings.Contains s d.Badauth = true
  · simp [h1]
  · by_cases h2 : strings.Contains s d.Notfqdn = true
    · simp [h1, h2]
    · by_cases h3 : strings.Contains s d.Abuse = true
      · simp [h1, h2, h3]
      · by_cases h4 : strings.Contains s "good" = true
        · simp [h1, h2, h3, h4]
        · by_cases h5 : strings.Contains s "nochg" = true
          · simp [h1, h2, h3, h4, h5]
          · simp [h1, h2, h3, h4, h5]

/-- The sample request is what `http.NewRequestWithContext` returns for the sample
provider and 203.0.113.5. -/
theorem sampleRequest_built :
    http.NewRequestWithContext (some sampleContext) "GET"
      (sampleProvider.updateURL (Addr.from4 203 0 113 5)).String = .ok sampleRequest := by
  rfl

/-- C1: for a response with status 200 and body `s`, the result of `Update` is decided by
the first matching rule of the ordered table auth marker, unknown-hostname marker, abuse
marker, `good`, `nochg`, and is `ErrUnknownResponse` when no rule matches; in particular a
body holding the auth marker yields `ErrAuth` whatever else it holds. -/
theorem Update_status_ok_first_rule (d : Deps) (p : Provider) (ctx : Option Context)
    (client : http.Client) (ip : Addr) (request : http.Request) (response : http.Response)
    (s : String)
    (hreq : http.NewRequestWithContext ctx "GET" (p.updateURL ip).String = .ok request)
    (hdo : client.Do (d.SetUserAgent request) = .ok response)
    (hbody : response.Body = .ok s)
    (hstatus : response.StatusCode = 200) :
    p.Update d ctx client ip = ruleOutcome d ip s ∧
    p.Update d ctx client ip =
      (if strings.Contains s d.Badauth then (Addr.zero, some (.wrap .ErrAuth []))
       else if strings.Contains s d.Notfqdn then
         (Addr.zero, some (.wrap .ErrHostnameNotExists []))
       else if strings.Contains s d.Abuse then (Addr.zero, some (.wrap .ErrAbuse []))
       else if strings.Contains s "good" || strings.Contains s "nochg" then (ip, none)
       else (Addr.zero, some (.wrap .ErrUnknownResponse [d.ToSingleLine s]))) ∧
    (strings.Contains s d.Badauth = true →
      p.Update d ctx client ip = (Addr.zero, some (.wrap .ErrAuth []))) := by
  have h := Update_of_response d p ctx client ip request response s hreq hdo hbody
  have h200 : ¬ (response.StatusCode ≠ http.StatusOK) := by
    simp [hstatus, http.StatusOK]
  rw [if_neg h200] at h
  refine ⟨by rw [h, classify_eq_ruleOutcome], ?_, ?_⟩
  · rw [h]
    unfold Provider.classify
    by_cases h4 : strings.Contains s "good" = true
    · simp [h4]
    · simp [h4]
  · intro hb
    rw [h]
    simp [Provider.classify, hb]

/-- C1, at a concrete input: the body `badauth good` holds the auth marker and a success
marker, and the earlier rule wins. -/
theorem Update_status_ok_first_rule_witness :
    sampleProvider.Update sampleDeps (some sampleContext) (constClient 200 "badauth good")
        (Addr.from4 203 0 113 5) = (Addr.zero, some (.wrap .ErrAuth [])) ∧
    strings.Contains "badauth good" "good" = true :=
  ⟨(Update_status_ok_first_rule sampleDeps sampleProvider (some sampleContext)
      (constClient 200 "badauth good") (Addr.from4 203 0 113 5) sampleRequest
      { StatusCode := 200, Body := .ok "badauth good" } "badauth good"
      sampleRequest_built rfl rfl rfl).2.2 (by decide), by decide⟩

/-- C2, refuted as stated: the status 201 lies in 200..299, and yet `Update` answers a 201
response whose body is `good` with the bad-HTTP-status error instead of classifying the
body. -/
theorem Update_status_201_is_bad_status :
    (200 ≤ (201 : Int) ∧ (201 : Int) ≤ 299) ∧
    sampleProvider.Update sampleDeps (some sampleContext) (constClient 201 "good")
        (Addr.from4 203 0 113 5) =
      (Addr.zero, some (.wrap .ErrBadHTTPStatus ["201", "good"])) ∧
    sampleProvider.Update sampleDeps (some sampleContext) (constClient 200 "good")
        (Addr.from4 203 0 113 5) = (Addr.from4 203 0 113 5, none) := by
  decide

/-- C2, amended: for a response whose body was read, `Update` returns the bad-HTTP-status
error if and only if the status code differs from 200; every such response yields it
whatever its body holds, and a response with status 200 is classified by its body. -/
theorem Update_bad_status_iff_not_200 (d : Deps) (p : Provider) (ctx : Option Context)
    (client : http.Client) (ip : Addr) (request : http.Request) (response : http.Response)
    (s : String)
    (hreq : http.NewRequestWithContext ctx "GET" (p.updateURL ip).String = .ok request)
    (hdo : client.Do (d.SetUserAgent request) = .ok response)
    (hbody : response.Body = .ok s) :
    (failsWith (p.Update d ctx client ip) .ErrBadHTTPStatus = true ↔
      response.StatusCode ≠ 200) ∧
    (response.StatusCode ≠ 200 →
      p.Update d ctx client ip =
        (Addr.zero,
          some (.wrap .ErrBadHTTPStatus [toString response.StatusCode, d.ToSingleLine s]))) ∧
    (response.StatusCode = 200 → p.Update d ctx client ip = ruleOutcome d ip s) := by
  have h := Update_of_response d p ctx client ip request response s hreq hdo hbody
  by_cases hs : response.StatusCode = 200
  · have h200 : ¬ (response.StatusCode ≠ http.StatusOK) := by simp [hs, http.StatusOK]
    rw [if_neg h200] at h
    refine ⟨?_, fun hne => absurd hs hne, fun _ => by rw [h, classify_eq_ruleOutcome]⟩
    rw [h]
    constructor
    · intro hf
      exfalso
      revert hf
      unfold Provider.classify failsWith
      by_cases h1 : strings.Contains s d.Badauth = true
      · simp [h1, Error.Is]
      · by_cases h2 : strings.Contains s d.Notfqdn = true
        · simp [h1, h2, Error.Is]
        · by_cases h3 : strings.Contains s d.Abuse = true
          · simp [h1, h2, h3, Error.Is]
          · by_cases h4 : strings.Contains s "good" = true
            · simp [h1, h2, h3, h4]
            · by_cases h5 : strings.Contains s "nochg" = true
              · simp [h1, h2, h3, h4, h5]
              · simp [h1, h2, h3, h4, h5, Error.Is]
    · intro hne
      exact absurd hs hne
  · have hne : response.StatusCode ≠ http.StatusOK := by simpa [http.StatusOK] using hs
    rw [if_pos hne] at h
    refine ⟨?_, fun _ => h, fun h200 => absurd h200 hs⟩
    rw [h]
    simp [failsWith, Error.Is, hs]

/-- C2 amended, at a concrete input: a 204 response with body `nochg`. -/
theorem Update_bad_status_iff_not_200_witness :
    sampleProvider.Update sampleDeps (some sampleContext) (constClient 204 "nochg")
        (Addr.from4 203 0 113 5) =
      (Addr.zero, some (.wrap .ErrBadHTTPStatus ["204", "nochg"])) :=
  (Update_bad_status_iff_not_200 sampleDeps sampleProvider (some sampleContext)
    (constClient 204 "nochg") (Addr.from4 203 0 113 5) sampleRequest
    { StatusCode := 204, Body := .ok "nochg" } "nochg"
    sampleRequest_built rfl rfl).2.1 (by decide)

/-- C3: whatever the client answers, a successful `Update` returns exactly the requested
address, and an `Update` that returns an error returns the zero `netip.Addr`. -/
theorem Update_returned_address (d : Deps) (p : Provider) (ctx : Option Context)
    (client : http.Client) (ip : Addr) :
    ((p.Update d ctx client ip).2 = none → (p.Update d ctx client ip).1 = ip) ∧
    ((p.Update d ctx client ip).2 ≠ none → (p.Update d ctx client ip).1 = Addr.zero) := by
  have hc : ∀ s : String,
      ((Provider.classify d ip s).2 = none → (Provider.classify d ip s).1 = ip) ∧
      ((Provider.classify d ip s).2 ≠ none → (Provider.classify d ip s).1 = Addr.zero) := by
    intro s
    unfold Provider.classify
    split_ifs <;> simp
  simp only [Provider.Update]
  split
  · simp
  · split
    · simp
    · split
      · simp
      · split_ifs
        · simp
        · exact hc _

/-- C3, at concrete inputs: a body `good 198.51.100.7` that echoes another address still
returns the requested 203.0.113.5, and a body `badauth` returns the zero address. -/
theorem Update_returned_address_witness :
    (sampleProvider.Update sampleDeps (some sampleContext) (constClient 200 "good 198.51.100.7")
        (Addr.from4 203 0 113 5)).1 = Addr.from4 203 0 113 5 ∧
    (sampleProvider.Update sampleDeps (some sampleContext) (constClient 200 "badauth")
        (Addr.from4 203 0 113 5)).1 = Addr.zero :=
  ⟨(Update_returned_address sampleDeps sampleProvider (some sampleContext)
      (constClient 200 "good 198.51.100.7") (Addr.from4 203 0 113 5)).1 (by decide),
   (Update_returned_address sampleDeps sampleProvider (some sampleContext)
      (constClient 200 "badauth") (Addr.from4 203 0 113 5)).2 (by decide)⟩

/-- The result of `New` on a message that decodes: the validation switch applied to the
provider with the defaulted host. -/
theorem New_fields (username password group : Option String) (provider_ip : Option Bool)
    (domain host : String) (ipVersion : IPVersion) :
    New (.fields username password group provider_ip) domain host ipVersion =
      (if username.getD "" = "" then (none, some (.wrap .ErrEmptyUsername []))
       else if password.getD "" = "" then (none, some (.wrap .ErrEmptyPassword []))
       else if host = "*" then (none, some (.wrap .ErrHostWildcard []))
       else
         (some { domain := domain,
                 host := if host = "" then "@" else host,
                 group := group.getD "",
                 ipVersion := ipVersion,
                 username := username.getD "",
                 password := password.getD "",
                 useProviderIP := provider_ip.getD false }, none)) := by
  simp only [New, json.Unmarshal, Provider.isValid]
  by_cases hu : username.getD "" = ""
  · simp [hu]
  · by_cases hp : password.getD "" = ""
    · simp [hu, hp]
    · by_cases hh : host = "*"
      · subst hh
        simp [hu, hp]
      · by_cases he : host = ""
        · subst he
          simp [hu, hp]
        · simp [hu, hp, hh, he]

/-- C4: for a configuration that decodes to `username`, `password`, `group` and
`provider_ip` (an absent option decodes to the zero value), `New` returns a provider if and
only if the username is non-empty, the password is non-empty and the host is not `*`;
otherwise it returns no provider and `ErrEmptyUsername` for an empty username, else
`ErrEmptyPassword` for an empty password, else `ErrHostWildcard`. -/
theorem New_provider_iff_valid (username password group : Option String)
    (provider_ip : Option Bool) (domain host : String) (ipVersion : IPVersion) :
    ((New (.fields username password group provider_ip) domain host ipVersion).1.isSome = true ↔
      username.getD "" ≠ "" ∧ password.getD "" ≠ "" ∧ host ≠ "*") ∧
    ((New (.fields username password group provider_ip) domain host ipVersion).1.isSome = true →
      (New (.fields username password group provider_ip) domain host ipVersion).2 = none) ∧
    (username.getD "" = "" →
      New (.fields username password group provider_ip) domain host ipVersion =
        (none, some (.wrap .ErrEmptyUsername []))) ∧
    (username.getD "" ≠ "" → password.getD "" = "" →
      New (.fields username password group provider_ip) domain host ipVersion =
        (none, some (.wrap .ErrEmptyPassword []))) ∧
    (username.getD "" ≠ "" → password.getD "" ≠ "" → host = "*" →
      New (.fields username password group provider_ip) domain host ipVersion =
        (none, some (.wrap .ErrHostWildcard []))) := by
  rw [New_fields]
  by_cases hu : username.getD "" = ""
  · simp [hu]
  · by_cases hp : password.getD "" = ""
    · simp [hu, hp]
    · by_cases hh : host = "*"
      · simp [hu, hp, hh]
      · simp [hu, hp, hh]

/-- C4, at concrete inputs: a full configuration is accepted, and a configuration with a
username but no password, given the host `*`, fails with `ErrEmptyPassword`. -/
theorem New_provider_iff_valid_witness :
    (New (.fields (some "u") (some "p") none none) "example.com" "" .IP4or6).1.isSome = true ∧
    New (.fields (some "u") none none none) "example.com" "*" .IP4or6 =
      (none, some (.wrap .ErrEmptyPassword [])) :=
  ⟨(New_provider_iff_valid (some "u") (some "p") none none "example.com" "" .IP4or6).1.2
      (by decide),
   (New_provider_iff_valid (some "u") none none none "example.com" "*" .IP4or6).2.2.2.1
      (by decide) (by decide)⟩

/-- C5, refuted as stated: with host `*` and a configuration that lacks the username, `New`
fails with `ErrEmptyUsername`, not with the wildcard-host error; so does not every raw
configuration lead to `ErrHostWildcard`. -/
theorem New_wildcard_empty_username :
    New (.fields none (some "p") none none) "example.com" "*" .IP4or6 =
      (none, some (.wrap .ErrEmptyUsername [])) ∧
    ¬ (∀ (data : RawMessage) (domain : String) (ipVersion : IPVersion),
        failsWith (New data domain "*" ipVersion) .ErrHostWildcard = true) := by
  refine ⟨by decide, fun h => ?_⟩
  have h1 := h (.fields none (some "p") none none) "example.com" .IP4or6
  revert h1
  decide

/-- C5, amended: `New` called with host `*` returns no provider and an error for every raw
configuration, and that error is the wildcard-host error exactly when the configuration
decodes with a non-empty username and a non-empty password. -/
theorem New_wildcard_host (data : RawMessage) (domain : String) (ipVersion : IPVersion) :
    (New data domain "*" ipVersion).1 = none ∧
    (New data domain "*" ipVersion).2 ≠ none ∧
    (failsWith (New data domain "*" ipVersion) .ErrHostWildcard = true ↔
      ∃ username password group provider_ip,
        data = .fields username password group provider_ip ∧
        username.getD "" ≠ "" ∧ password.getD "" ≠ "") := by
  cases data with
  | invalid msg => simp [New, json.Unmarshal, failsWith, Error.Is]
  | fields username password group provider_ip =>
    rw [New_fields]
    by_cases hu : username.getD "" = ""
    · simp [hu, failsWith, Error.Is]
    · by_cases hp : password.getD "" = ""
      · simp [hu, hp, failsWith, Error.Is]
      · simp only [hu, hp, if_false, if_true, failsWith, Error.Is, decide_True, ne_eq,
          not_false_eq_true, true_and, true_iff]
        refine ⟨by simp, ?_⟩
        exact ⟨username, password, group, provider_ip, rfl, hu, hp⟩

/-- C6: when `New` accepts a configuration, the provider's `Host()` is `@` for an empty
host and the given host otherwise, `Domain()` and `IPVersion()` are the given domain and
policy, and a configuration without the `provider_ip` option gives
`useProviderIP = false`. -/
theorem New_accepted_fields (data : RawMessage) (domain host : String)
    (ipVersion : IPVersion) (p : Provider)
    (hnew : New data domain host ipVersion = (some p, none)) :
    p.Host = (if host = "" then "@" else host) ∧
    p.Domain = domain ∧
    p.IPVersion = ipVersion ∧
    (∀ username password group, data = .fields username password group none →
      p.useProviderIP = false) := by
  cases data with
  | invalid msg => simp [New, json.Unmarshal] at hnew
  | fields username password group provider_ip =>
    rw [New_fields] at hnew
    by_cases hu : username.getD "" = ""
    · simp [hu] at hnew
    · by_cases hp : password.getD "" = ""
      · simp [hu, hp] at hnew
      · by_cases hh : host = "*"
        · simp [hu, hp, hh] at hnew
        · simp only [hu, hp, hh, if_false, Prod.mk.injEq, Option.some.injEq, and_true] at hnew
          subst hnew
          refine ⟨rfl, rfl, rfl, ?_⟩
          intro u pw g hd
          cases hd
          rfl

/-- C6, at a concrete input: user `u`, password `p`, no `provider_ip`, empty host. -/
theorem New_accepted_fields_witness :
    sampleProvider.Host = "@" ∧ sampleProvider.Domain = "example.com" ∧
    sampleProvider.IPVersion = .IP4or6 ∧ sampleProvider.useProviderIP = false :=
  have h := New_accepted_fields (.fields (some "u") (some "p") none none) "example.com" ""
    .IP4or6 sampleProvider (by decide)
  ⟨h.1, h.2.1, h.2.2.1, h.2.2.2 (some "u") (some "p") none rfl⟩

/-- A provider that `New` accepts has `useProviderIP` as the `provider_ip` option says,
`false` when the option is absent. -/
theorem New_useProviderIP (username password group : Option String)
    (provider_ip : Option Bool) (domain host : String) (ipVersion : IPVersion) (p : Provider)
    (hnew : New (.fields username password group provider_ip) domain host ipVersion =
      (some p, none)) :
    p.useProviderIP = provider_ip.getD false := by
  rw [New_fields] at hnew
  by_cases hu : username.getD "" = ""
  · simp [hu] at hnew
  · by_cases hp : password.getD "" = ""
    · simp [hu, hp] at hnew
    · by_cases hh : host = "*"
      · simp [hu, hp, hh] at hnew
      · simp only [hu, hp, hh, if_false, Prod.mk.injEq, Option.some.injEq, and_true] at hnew
        subst hnew
        rfl

/-- The query values of `Update`, entry by entry. -/
theorem updateValues_entries (p : Provider) (ip : Addr) :
    (p.updateValues ip).entries =
      [("username", [p.username]), ("password", [p.password]), ("location", [p.group]),
       ("hostname", [utils.BuildDomainName p.host p.domain])] ++
      (if p.useProviderIP then []
       else if ip.Is6 then [("myipv6", [ip.String])] else [("myip", [ip.String])]) := by
  unfold Provider.updateValues
  cases hp : p.useProviderIP <;> cases h6 : ip.Is6 <;>
    simp [url.Values.Set, url.Values.empty, setEntry]

/-- C7: for a provider with `useProviderIP = false`, the query values that `Update` encodes
into the request hold the address under exactly one of the two keys: an IPv6 address under
`myipv6` with `myip` absent, any other address under `myip` with `myipv6` absent. -/
theorem updateValues_address_key (p : Provider) (ip : Addr)
    (hp : p.useProviderIP = false) :
    (p.updateURL ip).RawQuery = (p.updateValues ip).Encode ∧
    (ip.Is6 = true →
      (p.updateValues ip).lookup "myipv6" = some [ip.String] ∧
      (p.updateValues ip).Has "myip" = false) ∧
    (ip.Is6 = false →
      (p.updateValues ip).lookup "myip" = some [ip.String] ∧
      (p.updateValues ip).Has "myipv6" = false) := by
  refine ⟨rfl, ?_, ?_⟩
  · intro h6
    simp [url.Values.lookup, url.Values.Has, updateValues_entries, hp, h6, List.find?]
  · intro h6
    simp [url.Values.lookup, url.Values.Has, updateValues_entries, hp, h6, List.find?]

/-- C7, at a concrete input: the sample provider and 203.0.113.5 give `myip=203.0.113.5`
and no `myipv6`. -/
theorem updateValues_address_key_witness :
    (sampleProvider.updateValues (Addr.from4 203 0 113 5)).lookup "myip" =
      some ["203.0.113.5"] ∧
    (sampleProvider.updateValues (Addr.from4 203 0 113 5)).Has "myipv6" = false :=
  (updateValues_address_key sampleProvider (Addr.from4 203 0 113 5) rfl).2.2 rfl

/-- C8: for a provider with `useProviderIP = true`, the query values of `Update` hold
neither `myip` nor `myipv6` for any address argument, and the values, the encoded query and
the requested URL are the same for any two address arguments. -/
theorem updateValues_provider_ip (p : Provider) (hp : p.useProviderIP = true) :
    (∀ ip : Addr, (p.updateValues ip).Has "myip" = false ∧
      (p.updateValues ip).Has "myipv6" = false) ∧
    (∀ ip1 ip2 : Addr, p.updateValues ip1 = p.updateValues ip2 ∧
      (p.updateURL ip1).RawQuery = (p.updateURL ip2).RawQuery ∧
      (p.updateURL ip1).String = (p.updateURL ip2).String) := by
  have hv : ∀ ip1 ip2 : Addr, p.updateValues ip1 = p.updateValues ip2 := by
    intro ip1 ip2
    simp [Provider.updateValues, hp]
  refine ⟨?_, ?_⟩
  · intro ip
    simp [url.Values.lookup, url.Values.Has, updateValues_entries, hp, List.find?]
  · intro ip1 ip2
    refine ⟨hv ip1 ip2, ?_, ?_⟩
    · simp only [Provider.updateURL, hv ip1 ip2]
    · simp only [Provider.updateURL, hv ip1 ip2]

/-- C8, at a concrete input: the provider that `New` builds from user `u`, password `p` and
`provider_ip = true`, given an IPv4 address, an IPv6 address and the zero address. -/
theorem updateValues_provider_ip_witness :
    New (.fields (some "u") (some "p") none (some true)) "example.com" "" .IP4or6 =
      (some { sampleProvider with useProviderIP := true }, none) ∧
    (({ sampleProvider with useProviderIP := true } : Provider).updateURL
        (Addr.from4 203 0 113 5)).String =
      "https://api.dynu.com/nic/update?hostname=example.com&location=&password=p&username=u" ∧
    (({ sampleProvider with useProviderIP := true } : Provider).updateURL
        (Addr.from4 203 0 113 5)).String =
      (({ sampleProvider with useProviderIP := true } : Provider).updateURL
        { hi := 0, lo := 1, z := .z6noz }).String ∧
    (({ sampleProvider with useProviderIP := true } : Provider).updateURL
        { hi := 0, lo := 1, z := .z6noz }).String =
      (({ sampleProvider with useProviderIP := true } : Provider).updateURL
        Addr.zero).String :=
  have hnew : New (.fields (some "u") (some "p") none (some true)) "example.com" "" .IP4or6 =
      (some { sampleProvider with useProviderIP := true }, none) := by decide
  have h := (updateValues_provider_ip { sampleProvider with useProviderIP := true }
    (New_useProviderIP _ _ _ _ _ _ _ _ hnew)).2
  ⟨hnew, by decide, (h (Addr.from4 203 0 113 5) { hi := 0, lo := 1, z := .z6noz }).2.2,
    (h { hi := 0, lo := 1, z := .z6noz } Addr.zero).2.2⟩

/-- Where `int` is wider than 32 bits, converting a `uint32` value keeps it. -/
theorem toInt_of_wide (intSize n : Nat) (hw : 32 < intSize) (hn : n < 2 ^ 32) :
    toInt intSize n = (n : Int) := by
  have h1 : (2 : Nat) ^ 32 ≤ 2 ^ (intSize - 1) :=
    Nat.pow_le_pow_right (by decide) (by omega)
  have h2 : (2 : Nat) ^ (intSize - 1) ≤ 2 ^ intSize :=
    Nat.pow_le_pow_right (by decide) (by omega)
  have h3 : n % 2 ^ intSize = n := Nat.mod_eq_of_lt (by omega)
  simp only [toInt, h3]
  rw [if_pos (by omega)]

/-- Where `int` is wider than 32 bits, the index expression is the remainder of the
counter value by the ring length. -/
theorem ringIndex_of_wide (intSize n len : Nat) (hw : 32 < intSize) (hn : n < 2 ^ 32) :
    ringIndex intSize n len = ((n % len : Nat) : Int) := by
  rw [ringIndex, toInt_of_wide intSize n hw hn, Int.ofNat_tmod]

/-- The counter value returned by `atomic.AddUint32` is a `uint32`. -/
theorem AddUint32_lt (counter delta : Nat) : atomic.AddUint32 counter delta < 2 ^ 32 :=
  Nat.mod_lt _ (by decide)

/-- Where `int` is wider than 32 bits, one call of `ip` on a non-empty ring leaves the
counter at `(c + 1) mod 2 ^ 32` and fetches from the provider at that value modulo the ring
length. -/
theorem ip_of_wide {C P D R : Type} (intSize : Nat) (data : P → D) (fetch : C → D → R)
    (f : Fetcher C P) (client : C) (hw : 32 < intSize) (hlen : 0 < f.ring.providers.length) :
    ∃ provider : P,
      f.ring.providers[(f.ring.counter + 1) % 2 ^ 32 % f.ring.providers.length]? =
        some provider ∧
      f.ip intSize data fetch client =
        ({ f with ring := { f.ring with counter := (f.ring.counter + 1) % 2 ^ 32 } },
          some (fetch client (data provider))) := by
  have hlt : (f.ring.counter + 1) % 2 ^ 32 % f.ring.providers.length <
      f.ring.providers.length := Nat.mod_lt _ hlen
  refine ⟨f.ring.providers[(f.ring.counter + 1) % 2 ^ 32 % f.ring.providers.length], ?_, ?_⟩
  · exact List.getElem?_eq_getElem hlt
  · have hidx := ringIndex_of_wide intSize (atomic.AddUint32 f.ring.counter 1)
      f.ring.providers.length hw (AddUint32_lt _ _)
    have hne : f.ring.providers.length ≠ 0 := by omega
    simp only [Fetcher.ip, hne, if_false, hidx]
    have hnn : ¬ (((atomic.AddUint32 f.ring.counter 1 % f.ring.providers.length : Nat) : Int)
        < 0) := by omega
    rw [if_neg hnn]
    simp only [Int.toNat_ofNat, atomic.AddUint32]
    rw [List.getElem?_eq_getElem hlt]

/-- Where `int` is wider than 32 bits, the index expression lies within a non-empty
ring. -/
theorem ringIndex_lt_of_wide (intSize n len : Nat) (hw : 32 < intSize) (hn : n < 2 ^ 32)
    (hlen : 0 < len) :
    0 ≤ ringIndex intSize n len ∧ ringIndex intSize n len < (len : Int) := by
  rw [ringIndex_of_wide intSize n len hw hn]
  have := Nat.mod_lt n hlen
  omega

/-- C9, evaluated where it fails: with a 32-bit `int`, a ring of three providers and the
counter at `2 ^ 31 - 1`, one call of `ip` advances the counter to `2 ^ 31` and then panics
on a negative index instead of fetching from position `2 ^ 31 mod 3 = 2`; with a 64-bit
`int` the same call fetches from that position. -/
theorem ip_int32_counter_overflow :
    ((sampleFetcher 2147483647).ip 32 id sampleFetch "any").1.ring.counter = 2147483648 ∧
    ((sampleFetcher 2147483647).ip 32 id sampleFetch "any").2 = none ∧
    (2147483647 + 1) % 2 ^ 32 % 3 = 2 ∧
    ((sampleFetcher 2147483647).ip 64 id sampleFetch "any").2 = some "any:c" := by
  decide

/-- C10, evaluated where it fails: with a 32-bit `int` and a ring of three providers, the
counter value `2 ^ 31 - 1` is incremented to `2 ^ 31`, which converts to `-2 ^ 31`, and the
index is `-2`, outside `[0, 3)`; the wrap from `2 ^ 32 - 1` to `0` itself gives index 0. -/
theorem ringIndex_int32_negative :
    ringIndex 32 (atomic.AddUint32 2147483647 1) 3 = -2 ∧
    ¬ (0 ≤ ringIndex 32 (atomic.AddUint32 2147483647 1) 3) ∧
    ringIndex 32 (atomic.AddUint32 4294967295 1) 3 = 0 := by
  decide

/-- Adding one to the dividend raises the quotient exactly when the residue `j` is hit. -/
theorem div_step (B N j : Nat) (hN : 0 < N) (hj : j < N) :
    (B + 1 + (N - 1 - j)) / N = (B + (N - 1 - j)) / N + (if B % N = j then 1 else 0) := by
  have hB := Nat.div_add_mod B N
  generalize hq : B / N = q at hB
  generalize hr : B % N = r at hB
  have hr' : r < N := hr ▸ Nat.mod_lt B hN
  have e1 : B + 1 + (N - 1 - j) = N * q + (r + 1 + (N - 1 - j)) := by omega
  have e2 : B + (N - 1 - j) = N * q + (r + (N - 1 - j)) := by omega
  rw [e1, e2, Nat.mul_add_div hN, Nat.mul_add_div hN]
  by_cases h : r = j
  · subst h
    have a1 : (r + 1 + (N - 1 - r)) / N = 1 :=
      Nat.div_eq_of_lt_le (by omega) (by omega)
    have a2 : (r + (N - 1 - r)) / N = 0 := Nat.div_eq_of_lt (by omega)
    simp [a1, a2]
  · rw [if_neg h]
    by_cases h2 : r < j
    · have a1 : (r + 1 + (N - 1 - j)) / N = 0 := Nat.div_eq_of_lt (by omega)
      have a2 : (r + (N - 1 - j)) / N = 0 := Nat.div_eq_of_lt (by omega)
      omega
    · have a1 : (r + 1 + (N - 1 - j)) / N = 1 :=
        Nat.div_eq_of_lt_le (by omega) (by omega)
      have a2 : (r + (N - 1 - j)) / N = 1 :=
        Nat.div_eq_of_lt_le (by omega) (by omega)
      omega

/-- Among `M` consecutive numbers from `a` on, the count of those with residue `j` modulo
`N`, as a difference of two quotients. -/
theorem count_residue (a N j : Nat) (hN : 0 < N) (hj : j < N) (M : Nat) :
    ((List.range M).map (fun k => (a + k) % N)).count j + (a + (N - 1 - j)) / N =
      (a + M + (N - 1 - j)) / N := by
  induction M with
  | zero => simp
  | succ M ih =>
    rw [List.range_succ, List.map_append, List.count_append]
    have hs := div_step (a + M) N j hN hj
    have e : a + (M + 1) + (N - 1 - j) = a + M + 1 + (N - 1 - j) := by omega
    rw [e, hs]
    simp only [List.map_cons, List.map_nil, List.count_singleton, beq_iff_eq]
    omega

/-- The rounded-up quotient `(M + N - 1) / N`. -/
theorem ceil_div (M N : Nat) (hN : 0 < N) :
    (M + N - 1) / N = M / N + (if M % N = 0 then 0 else 1) := by
  have hM := Nat.div_add_mod M N
  have hr : M % N < N := Nat.mod_lt M hN
  generalize M / N = q at hM ⊢
  generalize M % N = r at hM hr ⊢
  by_cases h0 : r = 0
  · rw [if_pos h0]
    have e : M + N - 1 = N * q + (N - 1) := by omega
    rw [e, Nat.mul_add_div hN, Nat.div_eq_of_lt (by omega)]
  · rw [if_neg h0]
    have e : M + N - 1 = N * q + (r + N - 1) := by omega
    have e1 : (r + N - 1) / N = 1 := Nat.div_eq_of_lt_le (by omega) (by omega)
    rw [e, Nat.mul_add_div hN, e1]

/-- Among `M` consecutive numbers, each residue modulo `N` occurs at least `M / N` rounded
down and at most `M / N` rounded up times. -/
theorem count_bounds (a N j : Nat) (hN : 0 < N) (hj : j < N) (M : Nat) :
    M / N ≤ ((List.range M).map (fun k => (a + k) % N)).count j ∧
    ((List.range M).map (fun k => (a + k) % N)).count j ≤ (M + N - 1) / N := by
  have h := count_residue a N j hN hj M
  have e : a + M + (N - 1 - j) = (a + (N - 1 - j)) + M := by omega
  rw [e] at h
  generalize a + (N - 1 - j) = X at h
  have hX := @Nat.add_div X M N hN
  rw [ceil_div M N hN]
  have hr : M % N < N := Nat.mod_lt M hN
  have hx : X % N < N := Nat.mod_lt _ hN
  generalize M % N = r at hX hr ⊢
  generalize X % N = x at hX hx
  generalize M / N = q at hX ⊢
  generalize X / N = y at hX h
  generalize (X + M) / N = z at hX h
  split_ifs at hX ⊢ <;> omega

/-- Where `int` is wider than 32 bits, a run of sequential calls on a non-empty ring
fetches, at call number `k` (from 0), from the ring position
`(c + 1 + k) mod 2 ^ 32 mod N`, and leaves the provider list as it was. -/
theorem run_of_wide {C P D R : Type} (intSize : Nat) (data : P → D) (fetch : C → D → R)
    (hw : 32 < intSize) (clients : List C) :
    ∀ f : Fetcher C P, 0 < f.ring.providers.length →
      (Fetcher.run intSize data fetch f clients).2 =
        List.zipWith
          (fun client k =>
            (f.ring.providers[(f.ring.counter + 1 + k) % 2 ^ 32 %
              f.ring.providers.length]?).map (fun p => fetch client (data p)))
          clients (List.range clients.length) := by
  induction clients with
  | nil => intro f _; simp [Fetcher.run]
  | cons client rest ih =>
    intro f hlen
    obtain ⟨provider, hp, hip⟩ := ip_of_wide intSize data fetch f client hw hlen
    have ih1 := ih (f.ip intSize data fetch client).1 (by rw [hip]; exact hlen)
    simp only [Fetcher.run, List.length_cons, List.range_succ_eq_map, List.zipWith_cons_cons,
      List.zipWith_map_right, ih1]
    rw [hip]
    simp only [Nat.add_zero, hp, Option.map_some', List.cons.injEq, true_and]
    have e : ∀ k : Nat, ((f.ring.counter + 1) % 2 ^ 32 + 1 + k) % 2 ^ 32 =
        (f.ring.counter + 1 + k.succ) % 2 ^ 32 := by
      intro k
      omega
    simp only [e]

/-- C11, refuted as stated: with a 64-bit `int`, a ring of three providers and the counter
at `2 ^ 32 - 3`, three sequential selections go to `c`, `a` and `a` again, because the
counter wraps from `2 ^ 32 - 1` to `0` and both values select position 0; the provider `b`
is not selected at all, although `3 / 3 = 1`. -/
theorem run_across_wrap_skips_provider :
    (Fetcher.run 64 id sampleFetch (sampleFetcher 4294967293) ["any", "any", "any"]).2 =
      [some "any:c", some "any:a", some "any:a"] ∧
    List.count (some "any:b")
      (Fetcher.run 64 id sampleFetch (sampleFetcher 4294967293) ["any", "any", "any"]).2 = 0 ∧
    3 / 3 = 1 := by
  decide

/-- C11, amended: where `int` is wider than 32 bits, for a ring of length `N > 0` and `M`
sequential selections during which the counter does not wrap (`c + M < 2 ^ 32`), or for
which `N` divides `2 ^ 32`, call number `k` fetches from position `(c + 1 + k) mod 2 ^ 32
mod N`, every position `j < N` is selected at least `M / N` rounded down and at most `M / N`
rounded up times, and exactly once when `M = N`. -/
theorem run_selection_counts {C P D R : Type} (intSize : Nat) (data : P → D)
    (fetch : C → D → R) (f : Fetcher C P) (clients : List C)
    (hw : 32 < intSize) (hlen : 0 < f.ring.providers.length)
    (hwrap : f.ring.counter + clients.length < 2 ^ 32 ∨ f.ring.providers.length ∣ 2 ^ 32) :
    ∃ positions : List Nat,
      positions = (List.range clients.length).map
        (fun k => (f.ring.counter + 1 + k) % 2 ^ 32 % f.ring.providers.length) ∧
      (Fetcher.run intSize data fetch f clients).2 =
        List.zipWith
          (fun client i => (f.ring.providers[i]?).map (fun p => fetch client (data p)))
          clients positions ∧
      ∀ j, j < f.ring.providers.length →
        clients.length / f.ring.providers.length ≤ positions.count j ∧
        positions.count j ≤
          (clients.length + f.ring.providers.length - 1) / f.ring.providers.length ∧
        (clients.length = f.ring.providers.length → positions.count j = 1) := by
  refine ⟨_, rfl, ?_, ?_⟩
  · rw [run_of_wide intSize data fetch hw clients f hlen, List.zipWith_map_right]
  · intro j hj
    have hpos : (List.range clients.length).map
        (fun k => (f.ring.counter + 1 + k) % 2 ^ 32 % f.ring.providers.length) =
        (List.range clients.length).map
          (fun k => (f.ring.counter + 1 + k) % f.ring.providers.length) := by
      apply List.map_congr_left
      intro k hk
      have hk1 : k < clients.length := List.mem_range.mp hk
      cases hwrap with
      | inl h =>
        have e : (f.ring.counter + 1 + k) % 2 ^ 32 = f.ring.counter + 1 + k :=
          Nat.mod_eq_of_lt (by omega)
        simp only [e]
      | inr h => exact Nat.mod_mod_of_dvd _ h
    rw [hpos]
    have hb := count_bounds (f.ring.counter + 1) f.ring.providers.length j hlen hj
      clients.length
    refine ⟨hb.1, hb.2, ?_⟩
    intro hMN
    have h1 : clients.length / f.ring.providers.length = 1 := by
      rw [hMN]
      exact Nat.div_self hlen
    have h2 : (clients.length + f.ring.providers.length - 1) / f.ring.providers.length = 1 := by
      rw [hMN]
      exact Nat.div_eq_of_lt_le (by omega) (by omega)
    omega

/-- C11 amended, at a concrete input: four selections on the sample ring from counter 0. -/
theorem run_selection_counts_witness :
    ∃ positions : List Nat,
      positions = (List.range 4).map (fun k => (0 + 1 + k) % 2 ^ 32 % 3) ∧
      (Fetcher.run 64 id sampleFetch (sampleFetcher 0) ["any", "v4", "v6", "any"]).2 =
        List.zipWith
          (fun client i => (["a", "b", "c"][i]?).map (fun p => sampleFetch client (id p)))
          ["any", "v4", "v6", "any"] positions ∧
      ∀ j, j < 3 →
        4 / 3 ≤ positions.count j ∧ positions.count j ≤ (4 + 3 - 1) / 3 ∧
        (4 = 3 → positions.count j = 1) :=
  run_selection_counts 64 id sampleFetch (sampleFetcher 0) ["any", "v4", "v6", "any"]
    (by decide) (by decide) (Or.inl (by decide))

/-- For a modulus above 1, a number and its successor have different residues. -/
theorem succ_mod_ne (n N : Nat) (hN : 1 < N) : (n + 1) % N ≠ n % N := by
  intro h
  have hd : N ∣ n + 1 - n := (Nat.modEq_iff_dvd' (Nat.le_succ n)).mp h.symm
  have h1 : n + 1 - n = 1 := by omega
  rw [h1, Nat.dvd_one] at hd
  omega

/-- C12, refuted as stated: with a 64-bit `int`, a ring of three providers and the counter
at `2 ^ 32 - 2`, two consecutive selections both pick position 0, the provider `a`. -/
theorem run_across_wrap_repeats_position :
    ringIndex 64 (atomic.AddUint32 4294967294 1) 3 = 0 ∧
    ringIndex 64 (atomic.AddUint32 (atomic.AddUint32 4294967294 1) 1) 3 = 0 ∧
    (Fetcher.run 64 id sampleFetch (sampleFetcher 4294967294) ["any", "any"]).2 =
      [some "any:a", some "any:a"] := by
  decide

/-- Whatever its outcome, a call of `ip` leaves the fetcher as it was except for the
counter cell, which holds the incremented value. -/
theorem ip_state {C P D R : Type} (intSize : Nat) (data : P → D) (fetch : C → D → R)
    (f : Fetcher C P) (client : C) :
    (f.ip intSize data fetch client).1 =
      { f with ring := { f.ring with counter := atomic.AddUint32 f.ring.counter 1 } } := by
  unfold Fetcher.ip
  simp only
  split_ifs
  · rfl
  · rfl
  · split <;> rfl

/-- C12, amended: where `int` is wider than 32 bits, for a ring of length `N > 1` the index
chosen by a call of `ip` and the index chosen by the next call, made on the fetcher that
the first call left, are equal if and only if the counter wraps between them (the first
call leaves it at `2 ^ 32 - 1`) and `N` divides `2 ^ 32 - 1`; in every other case the two
calls pick different positions. -/
theorem consecutive_indices_equal_iff {C P D R : Type} (intSize : Nat) (data : P → D)
    (fetch : C → D → R) (f : Fetcher C P) (client : C)
    (hw : 32 < intSize) (hN : 1 < f.ring.providers.length) :
    (0 ≤ ringIndex intSize (atomic.AddUint32 f.ring.counter 1) f.ring.providers.length ∧
      ringIndex intSize (atomic.AddUint32 f.ring.counter 1) f.ring.providers.length <
        (f.ring.providers.length : Int)) ∧
    (ringIndex intSize (atomic.AddUint32 f.ring.counter 1) f.ring.providers.length =
        ringIndex intSize
          (atomic.AddUint32 (f.ip intSize data fetch client).1.ring.counter 1)
          (f.ip intSize data fetch client).1.ring.providers.length ↔
      atomic.AddUint32 f.ring.counter 1 = 2 ^ 32 - 1 ∧
        f.ring.providers.length ∣ 2 ^ 32 - 1) := by
  rw [ip_state]
  simp only
  generalize f.ring.providers.length = N at hN
  generalize f.ring.counter = c
  have h1 := AddUint32_lt c 1
  have h2 := AddUint32_lt (atomic.AddUint32 c 1) 1
  refine ⟨ringIndex_lt_of_wide intSize _ N hw h1 (by omega), ?_⟩
  rw [ringIndex_of_wide intSize _ N hw h1, ringIndex_of_wide intSize _ N hw h2]
  generalize atomic.AddUint32 c 1 = n at h1 h2 ⊢
  simp only [Nat.cast_inj]
  by_cases hn : n = 2 ^ 32 - 1
  · subst hn
    have e : atomic.AddUint32 (2 ^ 32 - 1) 1 = 0 := by decide
    rw [e, Nat.zero_mod, Nat.dvd_iff_mod_eq_zero]
    simp
  · have e : atomic.AddUint32 n 1 = n + 1 := by
      unfold atomic.AddUint32
      exact Nat.mod_eq_of_lt (by omega)
    rw [e]
    constructor
    · intro h
      exact absurd h.symm (succ_mod_ne n N hN)
    · intro h
      exact absurd h.1 hn

/-- C12 amended, at a concrete input: from counter 0 on the sample ring, two consecutive
calls choose different indices. -/
theorem consecutive_indices_equal_iff_witness :
    ringIndex 64 (atomic.AddUint32 (sampleFetcher 0).ring.counter 1)
        (sampleFetcher 0).ring.providers.length ≠
      ringIndex 64
        (atomic.AddUint32 ((sampleFetcher 0).ip 64 id sampleFetch "any").1.ring.counter 1)
        ((sampleFetcher 0).ip 64 id sampleFetch "any").1.ring.providers.length :=
  fun h => absurd
    ((consecutive_indices_equal_iff 64 id sampleFetch (sampleFetcher 0) "any" (by decide)
      (by decide)).2.mp h).1 (by decide)

/-- C13, refuted as stated: on the sample fetcher with counter 0 a call to `IP6` selects
the provider `b`, but after a call to `IP4` the call to `IP6` selects `c`: the call to
`IP4` moved the position that `IP6` uses. -/
theorem IP4_moves_IP6_position :
    ((sampleFetcher 0).IP6 64 id sampleFetch).2 = some "v6:b" ∧
    (((sampleFetcher 0).IP4 64 id sampleFetch : Fetcher String String × Option String).1.IP6
        64 id sampleFetch).2 = some "v6:c" := by
  decide

/-- On every fetcher, the call after a first call of `ip` is made on the given fetcher
with the counter advanced by one; where `int` is wider than 32 bits and the ring is not
empty it fetches from position `(c + 2) mod 2 ^ 32 mod N`. -/
theorem ip_after_ip_of_wide {C P D R : Type} (intSize : Nat) (data : P → D)
    (fetch : C → D → R) (f : Fetcher C P) (before client : C)
    (hw : 32 < intSize) (hlen : 0 < f.ring.providers.length) :
    ∃ provider : P,
      f.ring.providers[(f.ring.counter + 2) % 2 ^ 32 % f.ring.providers.length]? =
        some provider ∧
      ((f.ip intSize data fetch before).1.ip intSize data fetch client).2 =
        some (fetch client (data provider)) := by
  rw [ip_state]
  obtain ⟨provider, hp, hip⟩ := ip_of_wide intSize data fetch
    { f with ring := { f.ring with counter := atomic.AddUint32 f.ring.counter 1 } } client hw
    hlen
  have e : (atomic.AddUint32 f.ring.counter 1 + 1) % 2 ^ 32 = (f.ring.counter + 2) % 2 ^ 32 := by
    unfold atomic.AddUint32
    omega
  simp only [e] at hp
  exact ⟨provider, hp, by rw [hip]⟩

/-- For a `uint32` value `n` and a modulus above 1, `n` and the next counter value have the
same residue exactly when the counter wraps and the modulus divides `2 ^ 32 - 1`. -/
theorem next_counter_mod_eq_iff (n N : Nat) (hn : n < 2 ^ 32) (hN : 1 < N) :
    n % N = (n + 1) % 2 ^ 32 % N ↔ n = 2 ^ 32 - 1 ∧ N ∣ 2 ^ 32 - 1 := by
  by_cases h : n = 2 ^ 32 - 1
  · subst h
    have e : (2 ^ 32 - 1 + 1) % 2 ^ 32 = 0 := by decide
    rw [e, Nat.zero_mod, Nat.dvd_iff_mod_eq_zero]
    simp
  · have e : (n + 1) % 2 ^ 32 = n + 1 := Nat.mod_eq_of_lt (by omega)
    rw [e]
    constructor
    · intro heq
      exact absurd heq.symm (succ_mod_ne n N hN)
    · intro hc
      exact absurd hc.1 h

/-- C13, amended: the three modes work on one ring with one counter and differ only in the
client they hand to `ip`; a call in any mode leaves the same fetcher as a call in any other
mode, namely the given one with the shared counter advanced by one modulo `2 ^ 32`. Where
`int` is wider than 32 bits and the ring has `N > 0` providers, a first call in any mode
fetches from position `(c + 1) mod 2 ^ 32 mod N`, and the call that follows a call to
`IP`, `IP4` or `IP6`, in whatever mode, fetches from position `(c + 2) mod 2 ^ 32 mod N`.
These two positions are equal for `N = 1`, and for `N > 1` exactly when the counter wraps
between the calls and `N` divides `2 ^ 32 - 1`. -/
theorem modes_share_ring {C P D R : Type} (intSize : Nat) (data : P → D) (fetch : C → D → R)
    (f : Fetcher C P) :
    f.IP intSize data fetch = f.ip intSize data fetch f.client ∧
    f.IP4 intSize data fetch = f.ip intSize data fetch f.client4 ∧
    f.IP6 intSize data fetch = f.ip intSize data fetch f.client6 ∧
    (f.IP intSize data fetch).1 = (f.IP4 intSize data fetch).1 ∧
    (f.IP4 intSize data fetch).1 = (f.IP6 intSize data fetch).1 ∧
    (f.IP4 intSize data fetch).1.ring.counter = (f.ring.counter + 1) % 2 ^ 32 ∧
    (f.IP4 intSize data fetch).1.ring.providers = f.ring.providers ∧
    (32 < intSize → 0 < f.ring.providers.length →
      ∃ first next : P,
        f.ring.providers[(f.ring.counter + 1) % 2 ^ 32 % f.ring.providers.length]? =
          some first ∧
        f.ring.providers[(f.ring.counter + 2) % 2 ^ 32 % f.ring.providers.length]? =
          some next ∧
        (f.IP intSize data fetch).2 = some (fetch f.client (data first)) ∧
        (f.IP4 intSize data fetch).2 = some (fetch f.client4 (data first)) ∧
        (f.IP6 intSize data fetch).2 = some (fetch f.client6 (data first)) ∧
        (∀ g : Fetcher C P,
          g = (f.IP intSize data fetch).1 ∨ g = (f.IP4 intSize data fetch).1 ∨
            g = (f.IP6 intSize data fetch).1 →
          (g.IP intSize data fetch).2 = some (fetch f.client (data next)) ∧
          (g.IP4 intSize data fetch).2 = some (fetch f.client4 (data next)) ∧
          (g.IP6 intSize data fetch).2 = some (fetch f.client6 (data next)))) ∧
    (f.ring.providers.length = 1 →
      (f.ring.counter + 1) % 2 ^ 32 % f.ring.providers.length =
        (f.ring.counter + 2) % 2 ^ 32 % f.ring.providers.length) ∧
    (1 < f.ring.providers.length →
      ((f.ring.counter + 1) % 2 ^ 32 % f.ring.providers.length =
          (f.ring.counter + 2) % 2 ^ 32 % f.ring.providers.length ↔
        (f.ring.counter + 1) % 2 ^ 32 = 2 ^ 32 - 1 ∧
          f.ring.providers.length ∣ 2 ^ 32 - 1)) := by
  have hst : ∀ client : C, (f.ip intSize data fetch client).1 =
      { f with ring := { f.ring with counter := atomic.AddUint32 f.ring.counter 1 } } :=
    fun client => ip_state intSize data fetch f client
  refine ⟨rfl, rfl, rfl, ?_, ?_, ?_, ?_, ?_, ?_, ?_⟩
  · simp only [Fetcher.IP, Fetcher.IP4, hst]
  · simp only [Fetcher.IP4, Fetcher.IP6, hst]
  · simp only [Fetcher.IP4, hst, atomic.AddUint32]
  · simp only [Fetcher.IP4, hst]
  · intro hw hlen
    obtain ⟨first, hfirst, _⟩ := ip_of_wide intSize data fetch f f.client hw hlen
    obtain ⟨next, hnext, _⟩ :=
      ip_after_ip_of_wide intSize data fetch f f.client f.client hw hlen
    have hone : ∀ client : C,
        (f.ip intSize data fetch client).2 = some (fetch client (data first)) := by
      intro client
      obtain ⟨q, hq, hip⟩ := ip_of_wide intSize data fetch f client hw hlen
      have hq1 : q = first := Option.some.inj (hq.symm.trans hfirst)
      rw [hip, hq1]
    have htwo : ∀ before client : C,
        ((f.ip intSize data fetch before).1.ip intSize data fetch client).2 =
          some (fetch client (data next)) := by
      intro before client
      obtain ⟨q, hq, hip⟩ := ip_after_ip_of_wide intSize data fetch f before client hw hlen
      have hq1 : q = next := Option.some.inj (hq.symm.trans hnext)
      rw [hip, hq1]
    have hcl : ∀ before : C, (f.ip intSize data fetch before).1.client = f.client ∧
        (f.ip intSize data fetch before).1.client4 = f.client4 ∧
        (f.ip intSize data fetch before).1.client6 = f.client6 := by
      intro before
      rw [hst]
      exact ⟨rfl, rfl, rfl⟩
    refine ⟨first, next, hfirst, hnext, hone f.client, hone f.client4, hone f.client6, ?_⟩
    intro g hg
    have hgen : ∀ before : C, g = (f.ip intSize data fetch before).1 →
        (g.IP intSize data fetch).2 = some (fetch f.client (data next)) ∧
        (g.IP4 intSize data fetch).2 = some (fetch f.client4 (data next)) ∧
        (g.IP6 intSize data fetch).2 = some (fetch f.client6 (data next)) := by
      intro before hgb
      subst hgb
      have h := hcl before
      refine ⟨?_, ?_, ?_⟩
      · simp only [Fetcher.IP, h.1, htwo]
      · simp only [Fetcher.IP4, h.2.1, htwo]
      · simp only [Fetcher.IP6, h.2.2, htwo]
    rcases hg with hg | hg | hg
    · exact hgen f.client hg
    · exact hgen f.client4 hg
    · exact hgen f.client6 hg
  · intro h1
    rw [h1, Nat.mod_one, Nat.mod_one]
  · intro hN
    have hn : (f.ring.counter + 1) % 2 ^ 32 < 2 ^ 32 := Nat.mod_lt _ (by decide)
    have e : (f.ring.counter + 2) % 2 ^ 32 = ((f.ring.counter + 1) % 2 ^ 32 + 1) % 2 ^ 32 := by
      omega
    rw [e]
    exact next_counter_mod_eq_iff _ _ hn hN

/-- C13 amended, at a concrete input: on the sample fetcher with counter 0 a first call
fetches from position 1, the provider `b`, and the call that follows a call to `IP4`
fetches from position 2, the provider `c`, in each of the three modes. -/
theorem modes_share_ring_witness :
    ∃ first next : String,
      (sampleFetcher 0).ring.providers[((sampleFetcher 0).ring.counter + 1) % 2 ^ 32 %
        (sampleFetcher 0).ring.providers.length]? = some first ∧
      (sampleFetcher 0).ring.providers[((sampleFetcher 0).ring.counter + 2) % 2 ^ 32 %
        (sampleFetcher 0).ring.providers.length]? = some next ∧
      ((sampleFetcher 0).IP 64 id sampleFetch).2 =
        some (sampleFetch (sampleFetcher 0).client (id first)) ∧
      ((sampleFetcher 0).IP4 64 id sampleFetch).2 =
        some (sampleFetch (sampleFetcher 0).client4 (id first)) ∧
      ((sampleFetcher 0).IP6 64 id sampleFetch).2 =
        some (sampleFetch (sampleFetcher 0).client6 (id first)) ∧
      (∀ g : Fetcher String String,
        g = ((sampleFetcher 0).IP 64 id sampleFetch).1 ∨
          g = ((sampleFetcher 0).IP4 64 id sampleFetch).1 ∨
          g = ((sampleFetcher 0).IP6 64 id sampleFetch).1 →
        (g.IP 64 id sampleFetch).2 = some (sampleFetch (sampleFetcher 0).client (id next)) ∧
        (g.IP4 64 id sampleFetch).2 = some (sampleFetch (sampleFetcher 0).client4 (id next)) ∧
        (g.IP6 64 id sampleFetch).2 =
          some (sampleFetch (sampleFetcher 0).client6 (id next))) :=
  (modes_share_ring 64 id sampleFetch (sampleFetcher 0)).2.2.2.2.2.2.2.1 (by decide)
    (by decide)

/-- A provider that `New` accepts has the given domain, and the given host or `@` for an
empty one. -/
theorem New_accepted_host_domain (data : RawMessage) (domain host : String)
    (ipVersion : IPVersion) (p : Provider)
    (hnew : New data domain host ipVersion = (some p, none)) :
    p.host = (if host = "" then "@" else host) ∧ p.domain = domain := by
  cases data with
  | invalid msg => simp [New, json.Unmarshal] at hnew
  | fields username password group provider_ip =>
    rw [New_fields] at hnew
    by_cases hu : username.getD "" = ""
    · simp [hu] at hnew
    · by_cases hp : password.getD "" = ""
      · simp [hu, hp] at hnew
      · by_cases hh : host = "*"
        · simp [hu, hp, hh] at hnew
        · simp only [hu, hp, hh, if_false, Prod.mk.injEq, Option.some.injEq, and_true] at hnew
          subst hnew
          exact ⟨rfl, rfl⟩

/-- C14: the `hostname` value of the query of `Update` is `BuildDomainName(host, domain)`,
which is the domain for the host `@` and `sub.domain` for the host `sub`; a provider that
`New` built from an empty host sends the domain as `hostname`. -/
theorem hostname_value (p : Provider) (ip : Addr) :
    (p.updateValues ip).lookup "hostname" = some [p.BuildDomainName] ∧
    p.BuildDomainName = utils.BuildDomainName p.host p.domain ∧
    (∀ domain : String, utils.BuildDomainName "@" domain = domain) ∧
    (∀ domain : String, utils.BuildDomainName "sub" domain = "sub" ++ "." ++ domain) ∧
    (∀ (data : RawMessage) (domain : String) (ipVersion : IPVersion) (q : Provider),
      New data domain "" ipVersion = (some q, none) →
        (q.updateValues ip).lookup "hostname" = some [domain]) := by
  have hl : ∀ q : Provider,
      (q.updateValues ip).lookup "hostname" = some [utils.BuildDomainName q.host q.domain] := by
    intro q
    simp [url.Values.lookup, updateValues_entries, List.find?]
  refine ⟨hl p, rfl, ?_, ?_, ?_⟩
  · intro domain
    simp [utils.BuildDomainName]
  · intro domain
    simp [utils.BuildDomainName]
  · intro data domain ipVersion q hnew
    have h := New_accepted_host_domain data domain "" ipVersion q hnew
    rw [hl q]
    have hh : q.host = "@" := by simpa using h.1
    have hd : q.domain = domain := h.2
    simp [utils.BuildDomainName, hh, hd]

/-- C14, at a concrete input: the provider built from user `u`, password `p` and an empty
host sends `hostname = example.com`, and the host `sub` gives `sub.example.com`. -/
theorem hostname_value_witness :
    (sampleProvider.updateValues (Addr.from4 203 0 113 5)).lookup "hostname" =
      some ["example.com"] ∧
    utils.BuildDomainName "sub" "example.com" = "sub.example.com" :=
  ⟨(hostname_value sampleProvider (Addr.from4 203 0 113 5)).2.2.2.2
      (.fields (some "u") (some "p") none none) "example.com" .IP4or6 sampleProvider
      (by decide),
   ((hostname_value sampleProvider (Addr.from4 203 0 113 5)).2.2.2.1 "example.com").trans
      (by decide)⟩

/-- The values that `Update` returns are the second component of the receiver-passing
form. -/
theorem UpdateState_result (d : Deps) (p : Provider) (ctx : Option Context)
    (client : http.Client) (ip : Addr) :
    (p.UpdateState d ctx client ip).2 = p.Update d ctx client ip := by
  simp only [Provider.UpdateState, Provider.Update]
  split
  · rfl
  · split
    · rfl
    · split
      · rfl
      · split_ifs <;> rfl

/-- C15: whatever the outcome, `Update` leaves the provider with every field as it was, and
`ip` leaves the provider list and the clients of the fetcher as they were and changes the
counter only. -/
theorem Update_and_ip_frame {C P D R : Type} (d : Deps) (p : Provider)
    (ctx : Option Context) (client : http.Client) (ip : Addr)
    (intSize : Nat) (data : P → D) (fetch : C → D → R) (f : Fetcher C P) (c : C) :
    (p.UpdateState d ctx client ip).1 = p ∧
    (p.UpdateState d ctx client ip).2 = p.Update d ctx client ip ∧
    (f.ip intSize data fetch c).1.ring.providers = f.ring.providers ∧
    (f.ip intSize data fetch c).1.client = f.client ∧
    (f.ip intSize data fetch c).1.client4 = f.client4 ∧
    (f.ip intSize data fetch c).1.client6 = f.client6 ∧
    (f.ip intSize data fetch c).1.ring.counter = (f.ring.counter + 1) % 2 ^ 32 := by
  refine ⟨?_, UpdateState_result d p ctx client ip, ?_, ?_, ?_, ?_, ?_⟩
  · simp only [Provider.UpdateState]
    split
    · rfl
    · split
      · rfl
      · split
        · rfl
        · split_ifs <;> rfl
  all_goals simp only [ip_state, atomic.AddUint32]

/-- C17: the query values of `Update` have the keys `username`, `password`, `location` and
`hostname`, at most one of `myip` and `myipv6`, and no other key; `username`, `password`
and `location` carry the configured user, password and group, and `location` is present,
with the empty value, when the group is empty. -/
theorem updateValues_keys (p : Provider) (ip : Addr) :
    (p.updateValues ip).lookup "username" = some [p.username] ∧
    (p.updateValues ip).lookup "password" = some [p.password] ∧
    (p.updateValues ip).lookup "location" = some [p.group] ∧
    (p.updateValues ip).Has "hostname" = true ∧
    ((p.updateValues ip).Has "myip" = false ∨ (p.updateValues ip).Has "myipv6" = false) ∧
    (∀ key : String, (p.updateValues ip).Has key = true →
      key ∈ ["username", "password", "location", "hostname", "myip", "myipv6"]) ∧
    (p.group = "" → (p.updateValues ip).Has "location" = true ∧
      (p.updateValues ip).Get "location" = "") := by
  refine ⟨?_, ?_, ?_, ?_, ?_, ?_, ?_⟩
  · simp [url.Values.lookup, updateValues_entries, List.find?]
  · simp [url.Values.lookup, updateValues_entries, List.find?]
  · simp [url.Values.lookup, updateValues_entries, List.find?]
  · simp [url.Values.Has, url.Values.lookup, updateValues_entries, List.find?]
  · cases hp : p.useProviderIP <;> cases h6 : ip.Is6 <;>
      simp [url.Values.Has, url.Values.lookup, updateValues_entries, List.find?, hp, h6]
  · intro key hkey
    simp only [url.Values.Has, url.Values.lookup, Option.isSome_map', List.find?_isSome,
      updateValues_entries] at hkey
    obtain ⟨e, he, hk⟩ := hkey
    have hk1 : e.1 = key := by simpa using hk
    subst hk1
    cases hp : p.useProviderIP <;> cases h6 : ip.Is6 <;>
      simp [hp, h6] at he <;> aesop
  · intro hg
    simp [url.Values.Has, url.Values.Get, url.Values.lookup, updateValues_entries, List.find?,
      hg]

/-- C17, at a concrete input: the sample provider has no group, and its query holds
`location=` with an empty value. -/
theorem updateValues_keys_witness :
    (sampleProvider.updateValues (Addr.from4 203 0 113 5)).Has "location" = true ∧
    (sampleProvider.updateValues (Addr.from4 203 0 113 5)).Get "location" = "" ∧
    (sampleProvider.updateURL (Addr.from4 203 0 113 5)).RawQuery =
      "hostname=example.com&location=&myip=203.0.113.5&password=p&username=u" :=
  ⟨((updateValues_keys sampleProvider (Addr.from4 203 0 113 5)).2.2.2.2.2.2 rfl).1,
   ((updateValues_keys sampleProvider (Addr.from4 203 0 113 5)).2.2.2.2.2.2 rfl).2,
   by decide⟩

/-- The character with a code below the surrogate range has that code. -/
theorem ofNat_toNat_of_lt (b : Nat) (hb : b < 0xD800) : (Char.ofNat b).toNat = b := by
  have hv : b.isValidChar := Or.inl hb
  simp only [Char.ofNat, dif_pos hv, Char.ofNatAux, Char.toNat]
  show (UInt32.ofNat' b _).toNat = b
  rfl

/-- A hexadecimal digit is not a control character. -/
theorem upperHexDigit_not_CTL (n : Nat) :
    ((upperHexDigit n).toNat < 0x20 || (upperHexDigit n).toNat = 0x7f) = false := by
  by_cases h : n < 16
  · interval_cases n <;> decide
  · have : upperHexDigit n = '0' := List.getD_eq_default _ _ (by simp; omega)
    rw [this]
    decide

/-- The escaped form of a byte holds no control character. -/
theorem escapeByte_not_CTL (b : Nat) :
    (escapeByte b).any (fun c => c.toNat < 0x20 || c.toNat = 0x7f) = false := by
  unfold escapeByte
  split_ifs with h1 h2
  · have hb : 0x2D ≤ b ∧ b ≤ 0x7E := by
      simp only [unreservedByte, Bool.or_eq_true, Bool.and_eq_true, decide_eq_true_eq] at h1
      omega
    simp only [List.any_cons, List.any_nil, Bool.or_false, ofNat_toNat_of_lt b (by omega)]
    simp only [Bool.or_eq_false_iff, decide_eq_false_iff_not]
    omega
  · decide
  · simp only [List.any_cons, List.any_nil, Bool.or_false, upperHexDigit_not_CTL]
    decide

/-- The result of `url.QueryEscape` holds no control character. -/
theorem QueryEscape_not_CTL (s : String) :
    stringContainsCTLByte (url.QueryEscape s) = false := by
  simp only [stringContainsCTLByte, url.QueryEscape, String.toList, List.any_flatMap,
    escapeByte_not_CTL, List.any_eq_false]
  simp

/-- A concatenation holds a control character when one of its parts does. -/
theorem CTL_append (a b : String) :
    stringContainsCTLByte (a ++ b) =
      (stringContainsCTLByte a || stringContainsCTLByte b) := by
  simp only [stringContainsCTLByte, String.toList, String.data_append, List.any_append]

/-- Joining strings without control characters gives a string without them. -/
theorem intercalate_go_not_CTL (sep : String) (hs : stringContainsCTLByte sep = false) :
    ∀ (l : List String) (acc : String), stringContainsCTLByte acc = false →
      (∀ x ∈ l, stringContainsCTLByte x = false) →
      stringContainsCTLByte (String.intercalate.go acc sep l) = false := by
  intro l
  induction l with
  | nil => intro acc ha _; simpa [String.intercalate.go] using ha
  | cons x xs ih =>
    intro acc ha hl
    simp only [String.intercalate.go]
    apply ih
    · rw [CTL_append, CTL_append, ha, hs, hl x (List.mem_cons_self _ _)]
      rfl
    · intro y hy
      exact hl y (List.mem_cons_of_mem _ hy)

/-- The result of `Values.Encode` holds no control character, whatever the values are. -/
theorem Encode_not_CTL (v : url.Values) : stringContainsCTLByte v.Encode = false := by
  unfold url.Values.Encode
  simp only
  generalize hpairs : (v.sortedKeys.flatMap fun k =>
    ((v.lookup k).getD []).map fun x => url.QueryEscape k ++ "=" ++ url.QueryEscape x) = pairs
  have hp : ∀ x ∈ pairs, stringContainsCTLByte x = false := by
    intro x hx
    rw [← hpairs] at hx
    simp only [List.mem_flatMap, List.mem_map] at hx
    obtain ⟨k, _, y, _, rfl⟩ := hx
    rw [CTL_append, CTL_append, QueryEscape_not_CTL, QueryEscape_not_CTL]
    decide
  cases pairs with
  | nil => decide
  | cons a as =>
    simp only [String.intercalate]
    exact intercalate_go_not_CTL "&" (by decide) as a (hp a (List.mem_cons_self _ _))
      (fun y hy => hp y (List.mem_cons_of_mem _ hy))

/-- The URL that `Update` requests holds no control character, whatever the provider and
the address are. -/
theorem updateURL_not_CTL (p : Provider) (ip : Addr) :
    stringContainsCTLByte (p.updateURL ip).String = false := by
  simp only [Provider.updateURL, url.URL.String]
  split_ifs with h
  · decide
  · simp only [CTL_append, Encode_not_CTL]
    decide

/-- Without `useProviderIP`, the query values hold the address under `myipv6` when it is
IPv6 and under `myip` otherwise, and the other key is absent. -/
theorem updateValues_lookup_address (p : Provider) (ip : Addr)
    (hp : p.useProviderIP = false) :
    (ip.Is6 = true →
      (p.updateValues ip).lookup "myipv6" = some [ip.String] ∧
      (p.updateValues ip).Has "myip" = false) ∧
    (ip.Is6 = false →
      (p.updateValues ip).lookup "myip" = some [ip.String] ∧
      (p.updateValues ip).Has "myipv6" = false) := by
  constructor
  · intro h6
    simp [url.Values.lookup, url.Values.Has, updateValues_entries, hp, h6, List.find?]
  · intro h6
    simp [url.Values.lookup, url.Values.Has, updateValues_entries, hp, h6, List.find?]

/-- C18: for a provider with `useProviderIP = false`, a non-nil context and any address,
the zero address included, building the request succeeds and `Update` does not return
`ErrBadRequest`, the request goes to the client (a transport error of the client is the
error returned), an address that is not IPv6 is sent as `myip = ip.String()` without
`myipv6`, the zero address as `myip = invalid IP`, and an IPv4-mapped IPv6 address is sent
as `myipv6`, without `myip`. -/
theorem Update_takes_any_address (d : Deps) (p : Provider) (ctx : Context)
    (client : http.Client) (ip : Addr) (hp : p.useProviderIP = false) :
    (∃ request : http.Request,
      http.NewRequestWithContext (some ctx) "GET" (p.updateURL ip).String = .ok request ∧
      request.URL = (p.updateURL ip).String ∧
      (∀ e : String, client.Do (d.SetUserAgent request) = .error e →
        p.Update d (some ctx) client ip =
          (Addr.zero, some (.wrap .ErrUnsuccessfulResponse [e])))) ∧
    failsWith (p.Update d (some ctx) client ip) .ErrBadRequest = false ∧
    (ip.Is6 = false →
      (p.updateValues ip).lookup "myip" = some [ip.String] ∧
      (p.updateValues ip).Has "myipv6" = false) ∧
    (p.updateValues Addr.zero).lookup "myip" = some ["invalid IP"] ∧
    (ip.Is4In6 = true →
      ip.Is6 = true ∧ (p.updateValues ip).lookup "myipv6" = some [ip.String] ∧
      (p.updateValues ip).Has "myip" = false) := by
  have hreq : http.NewRequestWithContext (some ctx) "GET" (p.updateURL ip).String =
      .ok { ctx := ctx, Method := "GET", URL := (p.updateURL ip).String, Header := [] } := by
    simp [http.NewRequestWithContext, updateURL_not_CTL]
  have hkey := updateValues_lookup_address p ip hp
  refine ⟨⟨_, hreq, rfl, ?_⟩, ?_, hkey.2, ?_, ?_⟩
  · intro e he
    simp only [Provider.Update, hreq, he]
  · simp only [Provider.Update, hreq]
    split
    · simp [failsWith, Error.Is]
    · split
      · simp [failsWith, Error.Is]
      · split_ifs
        · simp [failsWith, Error.Is]
        · unfold Provider.classify
          split_ifs <;> simp [failsWith, Error.Is]
  · exact ((updateValues_lookup_address p Addr.zero hp).2 (by decide)).1
  · intro h4
    have h6 : ip.Is6 = true := by
      simp only [Addr.Is4In6, Bool.and_eq_true] at h4
      exact h4.1.1
    exact ⟨h6, hkey.1 h6⟩

/-- C18, at concrete inputs: the sample provider sends the zero address as
`myip=invalid+IP`, and the IPv4-mapped address `::ffff:1.2.3.4` under `myipv6`. -/
theorem Update_takes_any_address_witness :
    (sampleProvider.updateURL Addr.zero).String =
      "https://api.dynu.com/nic/update?hostname=example.com&location=&myip=invalid+IP&password=p&username=u" ∧
    failsWith (sampleProvider.Update sampleDeps (some sampleContext) (constClient 200 "good")
      Addr.zero) .ErrBadRequest = false ∧
    (sampleProvider.updateValues { hi := 0, lo := 0xffff01020304, z := .z6noz }).lookup "myipv6" =
      some ["::ffff:1.2.3.4"] ∧
    (sampleProvider.updateValues { hi := 0, lo := 0xffff01020304, z := .z6noz }).Has "myip" =
      false :=
  ⟨by decide,
   (Update_takes_any_address sampleDeps sampleProvider sampleContext (constClient 200 "good")
      Addr.zero rfl).2.1,
   ((Update_takes_any_address sampleDeps sampleProvider sampleContext (constClient 200 "good")
      { hi := 0, lo := 0xffff01020304, z := .z6noz } rfl).2.2.2.2 (by decide)).2.1.trans
      (by decide),
   ((Update_takes_any_address sampleDeps sampleProvider sampleContext (constClient 200 "good")
      { hi := 0, lo := 0xffff01020304, z := .z6noz } rfl).2.2.2.2 (by decide)).2.2⟩

end DdnsUpdater
